import Mathlib

/-!
The batching pipeline of `main.go` (fast-excel-generation).

`main` reads a SQL cursor row by row, groups the rows into batches of
`batchSize`, sends every batch on the buffered channel `batchChan` (capacity
10) and lets one writer goroutine render the rows with `StreamWriter.SetRow`.
The writer reports through `errorChan` (capacity 1) or `doneChan`
(unbuffered); `main` closes `batchChan` and waits in a `select`.

The embedding is a transition system.  A state holds the local variables of
`main`, the local variables of the writer goroutine, the three channels and a
few history variables (`sent`, `received`, `errSignals`, `doneSignals`,
`closes`) that only record what has happened.  One step is one statement
group of one of the two goroutines between two channel operations; a
schedule (a list of goroutine ids) picks who moves next, and a goroutine that
is blocked, has returned, or whose process has exited does not move.

Everything the program calls but does not define (database driver, excelize)
is a field of `Env`.
-/

namespace FastExcel

/-- One scanned cell: what `rows.Scan` stores into an `interface{}`. -/
inductive Value
  | null
  | int (n : Int)
  | float (bits : Nat)
  | bool (b : Bool)
  | bytes (b : List Nat)
  | str (s : String)
  | time (unixNano : Int)
  deriving DecidableEq, Repr

abbrev Row := List Value

abbrev Batch := List Row

abbrev Err := String

/-- What one `rows.Next()` that returned true, followed by `rows.Scan`,
delivers: the driver's row, or the error `Scan` returns. -/
inductive ScanResult
  | ok (r : Row)
  | fail (e : Err)
  deriving DecidableEq, Repr

/-- The `log.Fatal` call sites of `main`, in source order. -/
inductive Site
  | sqlOpen          -- line 20
  | newStreamWriter  -- line 31
  | dbQuery          -- line 40
  | rowsColumns      -- line 47
  | header           -- line 56
  | scan             -- line 91
  | writer           -- line 115
  | flush            -- line 120
  | saveAs           -- line 124
  deriving DecidableEq, Repr

/-- How the process ends: `log.Fatal(err)` at some site, or the summary
report with `Total rows exported: totalRows`. -/
inductive Outcome
  | fatal (site : Site) (e : Err)
  | completed (totalRows : Nat)
  deriving DecidableEq, Repr

/-- The collaborators of `main`: the database, the cursor and the excelize
stream writer.  `scans` lists what the cursor delivers until `rows.Next()`
returns false; `rowsErr` is what `rows.Err()` would return afterwards (`main`
never calls it).  `coordinatesToCellName` is `excelize.CoordinatesToCellName`
with its error result dropped, as at line 69.  `setRow`, `flush` and `saveAs`
see the rows the stream writer has accepted so far. -/
structure Env where
  sqlOpen : Option Err
  newStreamWriter : Option Err
  dbQuery : Option Err
  rowsColumns : Except Err (List String)
  scans : List ScanResult
  rowsErr : Option Err
  coordinatesToCellName : Nat → Nat → String
  setRow : List (String × Row) → String → Row → Option Err
  flush : List (String × Row) → Option Err
  saveAs : List (String × Row) → Option Err
  batchSize : Nat

/-- Capacity of `batchChan`: `make(chan [][]interface{}, 10)`. -/
def batchChanCap : Nat := 10

/-- Capacity of `errorChan`: `make(chan error, 1)`. -/
def errorChanCap : Nat := 1

/-- The loops `for i, x := range src { dst[i] = f x }` of lines 52-54 and
95-97, and the stores through `valuePtrs[i] = &values[i]` done by `Scan`. -/
def assignAll {α β : Type} (f : α → β) (src : List α) (dst : List β) : List β :=
  src.enum.foldl (fun acc p => acc.set p.1 (f p.2)) dst

/-- Lines 51-54: `headerRow`. -/
def headerRow (columns : List String) : Row :=
  assignAll Value.str columns (List.replicate columns.length Value.null)

/-- Line 90 on success: column `i` of the driver's row is stored through
`valuePtrs[i]`, that is into `values[i]`. -/
def scanInto (values : Row) (r : Row) : Row :=
  assignAll id r values

/-- Lines 94-97: `rowValues`, a fresh slice filled from `values`. -/
def copyValues (values : Row) : Row :=
  assignAll id values (List.replicate values.length Value.null)

/-- Where `main` stands. -/
inductive MainPC
  | next       -- line 89, about to call rows.Next()
  | sendFull   -- line 102, at `batchChan <- currentBatch`
  | sendLast   -- line 108, at `batchChan <- currentBatch`
  | close      -- line 112
  | select     -- line 113
  | finish     -- line 119, after `<-doneChan`
  | exited (o : Outcome)
  deriving DecidableEq, Repr

/-- Where the writer goroutine stands. -/
inductive WriterPC
  | notStarted
  | recv                    -- line 67, at the receive of `range batchChan`
  | render (rest : List Row) -- line 68, rows of the current batch still ahead
  | sendErr (e : Err)       -- line 71, at `errorChan <- err`
  | sendDone                -- line 77, at `doneChan <- true`
  | returned
  deriving DecidableEq, Repr

structure State where
  pc : MainPC
  scans : List ScanResult
  values : Row
  currentBatch : Batch
  totalRows : Nat
  batchChan : List Batch
  closes : Nat
  errorChan : List Err
  wpc : WriterPC
  rowNum : Nat
  streamWriter : List (String × Row)
  sent : List Batch
  received : List Batch
  errSignals : List Err
  doneSignals : Nat
  deriving DecidableEq, Repr

/-- The outcome of the process, once it has exited. -/
def State.outcome (s : State) : Option Outcome :=
  match s.pc with
  | .exited o => some o
  | _ => none

/-- A process that exits before line 66: nothing was sent, the writer
goroutine was never started (`rowNum`, declared at line 65, is shown with its
initial value). -/
def dead (env : Env) (site : Site) (e : Err) (w : List (String × Row)) : State :=
  { pc := .exited (.fatal site e), scans := env.scans, values := [], currentBatch := [],
    totalRows := 0, batchChan := [], closes := 0, errorChan := [], wpc := .notStarted,
    rowNum := 2, streamWriter := w, sent := [], received := [], errSignals := [],
    doneSignals := 0 }

/-- Lines 14-87: everything `main` does before the batching loop, ending with
the writer goroutine started and waiting at its first receive. -/
def start (env : Env) : State :=
  match env.sqlOpen with
  | some e => dead env .sqlOpen e []
  | none =>
  match env.newStreamWriter with
  | some e => dead env .newStreamWriter e []
  | none =>
  match env.dbQuery with
  | some e => dead env .dbQuery e []
  | none =>
  match env.rowsColumns with
  | .error e => dead env .rowsColumns e []
  | .ok columns =>
  match env.setRow [] "A1" (headerRow columns) with
  | some e => dead env .header e []
  | none =>
    { pc := .next, scans := env.scans, values := List.replicate columns.length Value.null,
      currentBatch := [], totalRows := 0, batchChan := [], closes := 0, errorChan := [],
      wpc := .recv, rowNum := 2, streamWriter := [("A1", headerRow columns)], sent := [],
      received := [], errSignals := [], doneSignals := 0 }

/-- Lines 119-131 after the `select` took `<-doneChan`. -/
def finish (env : Env) (s : State) : Outcome :=
  match env.flush s.streamWriter with
  | some e => .fatal .flush e
  | none =>
    match env.saveAs s.streamWriter with
    | some e => .fatal .saveAs e
    | none => .completed s.totalRows

/-- One step of `main` (lines 89-131); `none` when `main` is blocked or the
process has exited. -/
def stepMain (env : Env) (s : State) : Option State :=
  match s.pc with
  | .next =>
    match s.scans with
    | [] =>
      if 0 < s.currentBatch.length then some { s with pc := .sendLast }
      else some { s with pc := .close }
    | .fail e :: rest => some { s with scans := rest, pc := .exited (.fatal .scan e) }
    | .ok r :: rest =>
      let values := scanInto s.values r
      let currentBatch := s.currentBatch ++ [copyValues values]
      some { s with
        scans := rest, values := values, currentBatch := currentBatch,
        totalRows := s.totalRows + 1,
        pc := if env.batchSize ≤ currentBatch.length then .sendFull else .next }
  | .sendFull =>
    if s.batchChan.length < batchChanCap then
      some { s with
        batchChan := s.batchChan ++ [s.currentBatch], sent := s.sent ++ [s.currentBatch],
        currentBatch := [], pc := .next }
    else none
  | .sendLast =>
    if s.batchChan.length < batchChanCap then
      some { s with
        batchChan := s.batchChan ++ [s.currentBatch], sent := s.sent ++ [s.currentBatch],
        pc := .close }
    else none
  | .close => some { s with closes := s.closes + 1, pc := .select }
  | .select =>
    match s.errorChan with
    | e :: rest => some { s with errorChan := rest, pc := .exited (.fatal .writer e) }
    | [] => none
  | .finish => some { s with pc := .exited (finish env s) }
  | .exited _ => none

/-- One step of the writer goroutine (lines 66-78); `none` when it is
blocked, has returned, or the process has exited.  The send on the
unbuffered `doneChan` completes only together with the receive in the
`select` of `main`. -/
def stepWriter (env : Env) (s : State) : Option State :=
  match s.pc with
  | .exited _ => none
  | _ =>
    match s.wpc with
    | .notStarted => none
    | .recv =>
      match s.batchChan with
      | batch :: rest =>
        some { s with batchChan := rest, received := s.received ++ [batch], wpc := .render batch }
      | [] => if 0 < s.closes then some { s with wpc := .sendDone } else none
    | .render [] => some { s with wpc := .recv }
    | .render (row :: rest) =>
      let cell := env.coordinatesToCellName 1 s.rowNum
      match env.setRow s.streamWriter cell row with
      | some e => some { s with wpc := .sendErr e }
      | none =>
        some { s with
          streamWriter := s.streamWriter ++ [(cell, row)], rowNum := s.rowNum + 1,
          wpc := .render rest }
    | .sendErr e =>
      if s.errorChan.length < errorChanCap then
        some { s with errorChan := s.errorChan ++ [e], errSignals := s.errSignals ++ [e],
                      wpc := .returned }
      else none
    | .sendDone =>
      if s.pc = .select then
        some { s with doneSignals := s.doneSignals + 1, wpc := .returned, pc := .finish }
      else none
    | .returned => none

/-- The two goroutines. -/
inductive Tid
  | main
  | writer
  deriving DecidableEq, Repr

def step (env : Env) (t : Tid) (s : State) : Option State :=
  match t with
  | .main => stepMain env s
  | .writer => stepWriter env s

/-- The scheduler offers the turn to `t`; a goroutine that cannot move
leaves the state as it is. -/
def advance (env : Env) (t : Tid) (s : State) : State :=
  (step env t s).getD s

def run (env : Env) : List Tid → State → State
  | [], s => s
  | t :: ts, s => run env ts (advance env t s)

/-- The state of the program after the schedule `sched`. -/
def exec (env : Env) (sched : List Tid) : State :=
  run env sched (start env)

/-- An environment in which nothing fails, with cells named by their row. -/
def plainEnv (columns : List String) (rows : List Row) (batchSize : Nat) : Env :=
  { sqlOpen := none, newStreamWriter := none, dbQuery := none, rowsColumns := .ok columns,
    scans := rows.map ScanResult.ok, rowsErr := none,
    coordinatesToCellName := fun _ row => "A" ++ toString row,
    setRow := fun _ _ _ => none, flush := fun _ => none, saveAs := fun _ => none,
    batchSize := batchSize }

/-- The column list `rows.Columns()` returned (empty when it failed). -/
def Env.columns (env : Env) : List String :=
  match env.rowsColumns with
  | .ok c => c
  | .error _ => []

/-! ## The step relation and the invariants of a run -/

/-- The steps of the two goroutines, one constructor per branch of `stepMain`
and `stepWriter`. -/
inductive Step (env : Env) : State → State → Prop
  | endLast {s : State} (hpc : s.pc = .next) (hsc : s.scans = [])
      (hcb : 0 < s.currentBatch.length) : Step env s { s with pc := .sendLast }
  | endClose {s : State} (hpc : s.pc = .next) (hsc : s.scans = [])
      (hcb : ¬ 0 < s.currentBatch.length) : Step env s { s with pc := .close }
  | scanFail {s : State} {e : Err} {rest : List ScanResult} (hpc : s.pc = .next)
      (hsc : s.scans = .fail e :: rest) :
      Step env s { s with scans := rest, pc := .exited (.fatal .scan e) }
  | scanFull {s : State} {r : Row} {rest : List ScanResult} (hpc : s.pc = .next)
      (hsc : s.scans = .ok r :: rest)
      (hB : env.batchSize ≤ (s.currentBatch ++ [copyValues (scanInto s.values r)]).length) :
      Step env s { s with
        scans := rest, values := scanInto s.values r,
        currentBatch := s.currentBatch ++ [copyValues (scanInto s.values r)],
        totalRows := s.totalRows + 1, pc := .sendFull }
  | scanMore {s : State} {r : Row} {rest : List ScanResult} (hpc : s.pc = .next)
      (hsc : s.scans = .ok r :: rest)
      (hB : ¬ env.batchSize ≤ (s.currentBatch ++ [copyValues (scanInto s.values r)]).length) :
      Step env s { s with
        scans := rest, values := scanInto s.values r,
        currentBatch := s.currentBatch ++ [copyValues (scanInto s.values r)],
        totalRows := s.totalRows + 1, pc := .next }
  | sendFull {s : State} (hpc : s.pc = .sendFull) (hlen : s.batchChan.length < batchChanCap) :
      Step env s { s with
        batchChan := s.batchChan ++ [s.currentBatch], sent := s.sent ++ [s.currentBatch],
        currentBatch := [], pc := .next }
  | sendLast {s : State} (hpc : s.pc = .sendLast) (hlen : s.batchChan.length < batchChanCap) :
      Step env s { s with
        batchChan := s.batchChan ++ [s.currentBatch], sent := s.sent ++ [s.currentBatch],
        pc := .close }
  | close {s : State} (hpc : s.pc = .close) :
      Step env s { s with closes := s.closes + 1, pc := .select }
  | selectErr {s : State} {e : Err} {rest : List Err} (hpc : s.pc = .select)
      (hch : s.errorChan = e :: rest) :
      Step env s { s with errorChan := rest, pc := .exited (.fatal .writer e) }
  | flushErr {s : State} {e : Err} (hpc : s.pc = .finish)
      (hfl : env.flush s.streamWriter = some e) :
      Step env s { s with pc := .exited (.fatal .flush e) }
  | saveErr {s : State} {e : Err} (hpc : s.pc = .finish)
      (hfl : env.flush s.streamWriter = none) (hsv : env.saveAs s.streamWriter = some e) :
      Step env s { s with pc := .exited (.fatal .saveAs e) }
  | report {s : State} (hpc : s.pc = .finish)
      (hfl : env.flush s.streamWriter = none) (hsv : env.saveAs s.streamWriter = none) :
      Step env s { s with pc := .exited (.completed s.totalRows) }
  | recv {s : State} {batch : Batch} {rest : List Batch} (hlive : s.outcome = none)
      (hw : s.wpc = .recv) (hch : s.batchChan = batch :: rest) :
      Step env s { s with
        batchChan := rest, received := s.received ++ [batch], wpc := .render batch }
  | recvClosed {s : State} (hlive : s.outcome = none) (hw : s.wpc = .recv)
      (hch : s.batchChan = []) (hcl : 0 < s.closes) : Step env s { s with wpc := .sendDone }
  | renderEnd {s : State} (hlive : s.outcome = none) (hw : s.wpc = .render []) :
      Step env s { s with wpc := .recv }
  | setRowFail {s : State} {row : Row} {rest : List Row} {e : Err} (hlive : s.outcome = none)
      (hw : s.wpc = .render (row :: rest))
      (hset : env.setRow s.streamWriter (env.coordinatesToCellName 1 s.rowNum) row = some e) :
      Step env s { s with wpc := .sendErr e }
  | setRowOk {s : State} {row : Row} {rest : List Row} (hlive : s.outcome = none)
      (hw : s.wpc = .render (row :: rest))
      (hset : env.setRow s.streamWriter (env.coordinatesToCellName 1 s.rowNum) row = none) :
      Step env s { s with
        streamWriter := s.streamWriter ++ [(env.coordinatesToCellName 1 s.rowNum, row)],
        rowNum := s.rowNum + 1, wpc := .render rest }
  | sendErr {s : State} {e : Err} (hlive : s.outcome = none) (hw : s.wpc = .sendErr e)
      (hlen : s.errorChan.length < errorChanCap) :
      Step env s { s with
        errorChan := s.errorChan ++ [e], errSignals := s.errSignals ++ [e], wpc := .returned }
  | sendDone {s : State} (hw : s.wpc = .sendDone) (hpc : s.pc = .select) :
      Step env s { s with doneSignals := s.doneSignals + 1, wpc := .returned, pc := .finish }

/-- The process exited before the writer goroutine was started (lines 20-56). -/
def diedEarly : MainPC → Bool
  | .exited (.fatal .sqlOpen _) | .exited (.fatal .newStreamWriter _) => true
  | .exited (.fatal .dbQuery _) | .exited (.fatal .rowsColumns _) => true
  | .exited (.fatal .header _) => true
  | _ => false

/-- How often `close(batchChan)` has run when `main` stands at a place. -/
def closesAt : MainPC → Nat
  | .next | .sendFull | .sendLast | .close => 0
  | .select | .finish => 1
  | .exited (.fatal .writer _) | .exited (.fatal .flush _) | .exited (.fatal .saveAs _) => 1
  | .exited (.completed _) => 1
  | .exited _ => 0

/-- The `select` of `main` has taken `<-doneChan`. -/
def tookDone : MainPC → Bool
  | .finish | .exited (.fatal .flush _) | .exited (.fatal .saveAs _) => true
  | .exited (.completed _) => true
  | _ => false

/-- The error the `select` of `main` has taken from `errorChan`, if any. -/
def tookErr : MainPC → Option Err
  | .exited (.fatal .writer e) => some e
  | _ => none

/-- Control, channel and signal facts that hold in every state of every run. -/
structure Inv (s : State) : Prop where
  closes_eq : s.closes = closesAt s.pc
  queue : s.received ++ s.batchChan = s.sent
  cap : s.batchChan.length ≤ batchChanCap
  done_eq : s.doneSignals = if tookDone s.pc then 1 else 0
  err_eq : s.errSignals = (tookErr s.pc).toList ++ s.errorChan
  signals : s.errSignals.length + s.doneSignals = if s.wpc = .returned then 1 else 0
  at_done : s.wpc = .sendDone → s.pc = .select ∧ s.batchChan = []
  after_done : tookDone s.pc → s.batchChan = []
  not_started : s.wpc = .notStarted ↔ diedEarly s.pc
  rowNum_eq : s.wpc ≠ .notStarted → s.rowNum = s.streamWriter.length + 1

/-- The `SetRow` calls for consecutive data rows starting at document row `k`:
`CoordinatesToCellName(1, rowNum)` with `rowNum++` after each. -/
def cells (env : Env) : Nat → List Row → List (String × Row)
  | _, [] => []
  | k, r :: rs => (env.coordinatesToCellName 1 k, r) :: cells env (k + 1) rs

/-- The data rows the stream writer has accepted (everything after the header). -/
def rendered (s : State) : List Row :=
  s.streamWriter.tail.map Prod.snd

/-- How the rows rendered so far relate to the batches received so far. -/
def Flow (env : Env) (s : State) : Prop :=
  match s.wpc with
  | .notStarted => s.streamWriter = []
  | .recv => rendered s = s.received.flatten
  | .sendDone => rendered s = s.received.flatten
  | .render rest => rendered s ++ rest = s.received.flatten
  | .sendErr e => ∃ row rest, rendered s ++ row :: rest = s.received.flatten ∧
      env.setRow s.streamWriter (env.coordinatesToCellName 1 s.rowNum) row = some e
  | .returned => (s.errSignals = [] → rendered s = s.received.flatten) ∧
      ∀ e ∈ s.errSignals, ∃ row rest, rendered s ++ row :: rest = s.received.flatten ∧
        env.setRow s.streamWriter (env.coordinatesToCellName 1 s.rowNum) row = some e

/-- The document: the header at `A1`, then the rendered rows at consecutive
cells from row 2. -/
structure DocInv (env : Env) (s : State) : Prop where
  doc_eq : s.wpc ≠ .notStarted →
    ("A1", headerRow env.columns) :: cells env 2 (rendered s) = s.streamWriter
  flow : Flow env s

/-- `main` has not yet got past the batching loop and the final send (lines
89-109), or exited inside it. -/
def batching : MainPC → Bool
  | .close | .select | .finish => false
  | .exited (.fatal .writer _) | .exited (.fatal .flush _) | .exited (.fatal .saveAs _) => false
  | .exited (.completed _) => false
  | _ => true

/-- The rows appended to `currentBatch` that have not been sent. -/
def pending (s : State) : Batch :=
  if batching s.pc then s.currentBatch else []

/-- The failing scan result `main` consumed when it exited at line 91. -/
def consumedFail : MainPC → List ScanResult
  | .exited (.fatal .scan e) => [.fail e]
  | _ => []

/-- `rows.Next()` has returned false. -/
def afterLoop : MainPC → Bool
  | .sendLast | .close | .select | .finish => true
  | .exited (.fatal .writer _) | .exited (.fatal .flush _) | .exited (.fatal .saveAs _) => true
  | .exited (.completed _) => true
  | _ => false

/-- Where the cursor stands: `totalRows` rows were scanned successfully. -/
structure SrcInv (env : Env) (s : State) : Prop where
  pos : env.scans.drop s.totalRows = consumedFail s.pc ++ s.scans
  le : s.totalRows ≤ env.scans.length
  oks : ∀ x ∈ env.scans.take s.totalRows, ∃ r, x = ScanResult.ok r
  after : afterLoop s.pc → s.scans = []
  vals : s.wpc ≠ .notStarted → s.values.length = env.columns.length
  total : s.sent.flatten.length + (pending s).length = s.totalRows

/-- The batch sizes the batching loop produces for `n` rows with capacity `B`:
`n / B` full batches, then the remainder if there is one. -/
def chunkSizes (n B : Nat) : List Nat :=
  List.replicate (n / B) B ++ (if n % B = 0 then [] else [n % B])

/-- The shape of the batches: full ones while the loop runs, the remainder
last. -/
structure BatchInv (env : Env) (s : State) : Prop where
  full : batching s.pc → ∀ b ∈ s.sent, b.length = env.batchSize
  count : batching s.pc →
    s.sent.length * env.batchSize + s.currentBatch.length = s.totalRows
  cb_lt : batching s.pc → s.pc ≠ .sendFull → s.currentBatch.length < env.batchSize
  cb_full : s.pc = .sendFull → s.currentBatch.length = env.batchSize
  cb_last : s.pc = .sendLast → 0 < s.currentBatch.length
  sizes : batching s.pc = false →
    s.sent.map List.length = chunkSizes s.totalRows env.batchSize

/-- Why the process ended the way it did, for the exits after the `select`. -/
def ExitInv (env : Env) (s : State) : Prop :=
  match s.pc with
  | .exited (.fatal .flush e) => env.flush s.streamWriter = some e
  | .exited (.fatal .saveAs e) =>
      env.flush s.streamWriter = none ∧ env.saveAs s.streamWriter = some e
  | .exited (.completed n) =>
      n = s.totalRows ∧ env.flush s.streamWriter = none ∧ env.saveAs s.streamWriter = none
  | _ => True

/-- Work left for `main` at a place, with `c` rows in `currentBatch`. -/
def mainWeight (c : Nat) : MainPC → Nat
  | .next => c + 8
  | .sendFull => c + 11
  | .sendLast => c + 7
  | .close => 3
  | .select => 2
  | .finish => 1
  | .exited _ => 0

/-- Work left for the writer at a place. -/
def writerWeight : WriterPC → Nat
  | .notStarted => 0
  | .recv => 3
  | .render rest => rest.length + 4
  | .sendErr _ => 1
  | .sendDone => 2
  | .returned => 0

/-- A bound on the number of steps the two goroutines can still take. -/
def measure (s : State) : Nat :=
  6 * s.scans.length + mainWeight s.currentBatch.length s.pc
    + (s.batchChan.map (fun b => b.length + 2)).sum + writerWeight s.wpc

/-- `SetRow` accepts every row. -/
def Env.RendersAll (env : Env) : Prop :=
  ∀ d c r, env.setRow d c r = none

/-- An environment in which `main` reaches the batching loop, the cursor
delivers exactly `rows` and nothing fails afterwards. -/
structure Env.Clean (env : Env) (rows : List Row) : Prop where
  starts : (start env).pc = .next
  src : env.scans = rows.map ScanResult.ok
  renders : env.RendersAll
  flushes : ∀ d, env.flush d = none
  saves : ∀ d, env.saveAs d = none

/-! ## Sample environments and schedules -/

open Tid

/-- Three one-column rows, batches of two. -/
def smallEnv : Env :=
  plainEnv ["id"] [[.int 1], [.int 2], [.int 3]] 2

/-- The 25,000-row scenario with the constants of the program. -/
def scenarioEnv : Env :=
  plainEnv ["id"] (List.replicate 25000 [Value.int 7]) 10000

/-- A full run of `smallEnv`: `main` up to the `select`, then the writer down
to the send on `doneChan`, then `main` to the report. -/
def smallRun : List Tid :=
  [main, main, main, main, main, main, main,
   writer, writer, writer, writer, writer, writer, writer, writer, writer, main]

/-- A two-column table with no rows. -/
def emptyEnv : Env :=
  plainEnv ["id", "name"] [] 10000

/-- The whole run over an empty table: end of data, close, the writer sees the
closed channel and signals, `main` reports. -/
def emptyRun : List Tid :=
  [main, main, writer, writer, main]

/-- Eleven rows in batches of one: enough to fill `batchChan`. -/
def floodEnv : Env :=
  plainEnv ["id"] (List.replicate 11 [Value.int 0]) 1

/-- `main` alone: ten batches scanned and sent, the eleventh scanned. -/
def floodSched : List Tid :=
  List.replicate 21 main

/-- The very first `rows.Scan` fails. -/
def scanFailEnv : Env :=
  { plainEnv ["id"] [] 10000 with scans := [ScanResult.fail "sql: Scan error on column index 0"] }

/-- One row is scanned, then `rows.Scan` fails. -/
def lateScanFailEnv : Env :=
  { plainEnv ["id"] [] 10000 with
    scans := [ScanResult.ok [Value.int 1], ScanResult.fail "sql: Scan error on column index 0"] }

/-- `SetRow` rejects the second data row of a three-row table in batches of
two. -/
def secondRowFailsEnv : Env :=
  { smallEnv with
    setRow := fun d _ _ => if d.length = 2 then some "stream writer: write failed" else none }

/-- `main` up to the `select`, the writer up to its send on `errorChan`, then
`main` takes the error. -/
def secondRowFailsRun : List Tid :=
  [main, main, main, main, main, main, main, writer, writer, writer, writer, main]

/-- The cursor delivers one row and then stops with an error: `rows.Next()`
returns false and `rows.Err()` is not nil. -/
def rowsErrEnv : Env :=
  { plainEnv ["id"] [[Value.int 1]] 10000 with
    rowsErr := some "driver: bad connection" }

/-- A full run over `rowsErrEnv`. -/
def rowsErrRun : List Tid :=
  [main, main, main, main, writer, writer, writer, writer, writer, main]

/-- A table of 120,000 one-column rows: twelve full batches of 10,000. -/
def manyRows : List Row :=
  List.replicate 120000 [Value.int 1]

/-- The constants of the program over `manyRows`, and a stream writer that
accepts the header and rejects every data row. -/
def stuckEnv : Env :=
  { plainEnv ["id"] manyRows 10000 with
    setRow := fun d _ _ => if d.isEmpty then none else some "no space left on device" }

/-- `SetRow` rejects every row once the header is in place. -/
def Env.RejectsData (env : Env) : Prop :=
  ∀ d c r, d ≠ [] → env.setRow d c r ≠ none

/-- With a writer that fails on its first data row, at most one batch is
ever received. -/
def FirstRowFails (s : State) : Prop :=
  match s.wpc with
  | .notStarted => s.received = []
  | .recv => s.received = []
  | .sendDone => s.received = []
  | .render rest => rest ≠ [] ∧ s.received.length = 1
  | .sendErr _ => s.received.length = 1
  | .returned => s.received.length ≤ 1

/-! ## The step relation covers the step functions -/

theorem stepMain_sound {env : Env} {s s' : State} (h : stepMain env s = some s') :
    Step env s s' := by
  unfold stepMain at h
  split at h
  · split at h
    · split at h
      · cases h; exact Step.endLast ‹_› ‹_› ‹_›
      · cases h; exact Step.endClose ‹_› ‹_› ‹_›
    · cases h; exact Step.scanFail ‹_› ‹_›
    · simp only [Option.some.injEq] at h
      by_cases hB : env.batchSize ≤ (s.currentBatch ++ [copyValues (scanInto s.values ‹Row›)]).length
      · rw [if_pos hB] at h; subst h; exact Step.scanFull ‹_› ‹_› hB
      · rw [if_neg hB] at h; subst h; exact Step.scanMore ‹_› ‹_› hB
  · split at h
    · cases h; exact Step.sendFull ‹_› ‹_›
    · cases h
  · split at h
    · cases h; exact Step.sendLast ‹_› ‹_›
    · cases h
  · cases h; exact Step.close ‹_›
  · split at h
    · cases h; exact Step.selectErr ‹_› ‹_›
    · cases h
  · simp only [Option.some.injEq] at h
    subst h
    unfold finish
    split
    · exact Step.flushErr ‹_› ‹_›
    · split
      · exact Step.saveErr ‹_› ‹_› ‹_›
      · exact Step.report ‹_› ‹_› ‹_›
  · cases h

theorem stepWriter_sound {env : Env} {s s' : State} (h : stepWriter env s = some s') :
    Step env s s' := by
  unfold stepWriter at h
  split at h
  · cases h
  · rename_i hne
    have hlive : s.outcome = none := by
      unfold State.outcome
      split
      · exact absurd ‹_› (hne _)
      · rfl
    split at h
    · cases h
    · split at h
      · cases h; exact Step.recv hlive ‹_› ‹_›
      · split at h
        · cases h; exact Step.recvClosed hlive ‹_› ‹_› ‹_›
        · cases h
    · cases h; exact Step.renderEnd hlive ‹_›
    · simp only at h
      split at h
      · cases h; exact Step.setRowFail hlive ‹_› ‹_›
      · cases h; exact Step.setRowOk hlive ‹_› ‹_›
    · split at h
      · cases h; exact Step.sendErr hlive ‹_› ‹_›
      · cases h
    · split at h
      · cases h; exact Step.sendDone ‹_› ‹_›
      · cases h
    · cases h

theorem step_sound {env : Env} {t : Tid} {s s' : State} (h : step env t s = some s') :
    Step env s s' := by
  cases t
  · exact stepMain_sound h
  · exact stepWriter_sound h

/-! ## Invariants -/

theorem inv_start (env : Env) : Inv (start env) := by
  unfold FastExcel.start
  repeat' split
  all_goals constructor <;> simp [dead, closesAt, tookDone, tookErr, batchChanCap, diedEarly]

set_option maxHeartbeats 1000000 in
theorem inv_step {env : Env} {s s' : State} (h : Inv s) (hs : Step env s s') : Inv s' := by
  obtain ⟨h1, h2, h3, h4, h5, h6, h7, h8, h9, h10⟩ := h
  obtain ⟨pc, scans, values, cb, n, ch, closes, ech, wpc, rowNum, sw, sent, received, es, ds⟩ := s
  cases hs <;> simp only [State.outcome] at * <;> subst_vars <;> constructor <;>
    simp only [closesAt, tookDone, tookErr, diedEarly, batchChanCap, List.length_append,
      List.length_cons, List.length_nil] at * <;>
    first
      | assumption
      | omega
      | (simp_all; done)
      | (intro hw; rw [hw] at h6; simp at h6; done)
      | (cases pc <;> simp_all; done)

/-- Whatever holds at the start and is kept by every step holds after every
schedule. -/
theorem run_invariant {env : Env} (P : State → Prop)
    (hstep : ∀ s s', P s → Step env s s' → P s') (sched : List Tid) {s : State} (h : P s) :
    P (run env sched s) := by
  induction sched generalizing s with
  | nil => exact h
  | cons t ts ih =>
    apply ih
    unfold advance
    cases hst : step env t s with
    | none => simpa using h
    | some s' => simpa using hstep s s' h (step_sound hst)

theorem inv_exec (env : Env) (sched : List Tid) : Inv (exec env sched) :=
  run_invariant Inv (fun _ _ h hs => inv_step h hs) sched (inv_start env)

theorem assignAll_aux {α β : Type} (f : α → β) :
    ∀ (src : List α) (k : Nat) (dst : List β), dst.length = k + src.length →
      (src.enumFrom k).foldl (fun acc p => acc.set p.1 (f p.2)) dst = dst.take k ++ src.map f := by
  intro src
  induction src with
  | nil =>
    intro k dst h
    simp at h
    simp [List.take_of_length_le (Nat.le_of_eq h)]
  | cons x xs ih =>
    intro k dst h
    simp only [List.enumFrom_cons, List.foldl_cons, List.map_cons]
    rw [ih (k + 1) (dst.set k (f x)) (by simp [h]; omega)]
    have hk : k < dst.length := by simp [h]
    rw [List.take_succ, List.set_take, List.set_eq_of_length_le (by simp),
      List.getElem?_set_self hk]
    simp

theorem assignAll_eq {α β : Type} (f : α → β) (src : List α) (dst : List β)
    (h : dst.length = src.length) : assignAll f src dst = src.map f := by
  unfold assignAll List.enum
  rw [assignAll_aux f src 0 dst (by simpa using h)]
  simp

theorem assignAll_length {α β : Type} (f : α → β) (src : List α) (dst : List β) :
    (assignAll f src dst).length = dst.length := by
  unfold assignAll
  generalize src.enum = l
  induction l generalizing dst with
  | nil => rfl
  | cons p ps ih => simp [List.foldl_cons, ih]

theorem headerRow_eq (columns : List String) : headerRow columns = columns.map Value.str := by
  unfold headerRow
  exact assignAll_eq _ _ _ (by simp)

theorem scanInto_length (values r : Row) : (scanInto values r).length = values.length :=
  assignAll_length _ _ _

theorem cells_append (env : Env) (rs : List Row) (r : Row) (k : Nat) :
    cells env k (rs ++ [r]) = cells env k rs ++ [(env.coordinatesToCellName 1 (k + rs.length), r)] := by
  induction rs generalizing k with
  | nil => simp [cells]
  | cons x xs ih => simp [cells, ih, Nat.add_assoc, Nat.add_comm 1]

theorem cells_length (env : Env) (rs : List Row) (k : Nat) : (cells env k rs).length = rs.length := by
  induction rs generalizing k with
  | nil => simp [cells]
  | cons x xs ih => simp [cells, ih]

theorem cells_snd (env : Env) (rs : List Row) (k : Nat) : (cells env k rs).map Prod.snd = rs := by
  induction rs generalizing k with
  | nil => simp [cells]
  | cons x xs ih => simp [cells, ih]

theorem docInv_start (env : Env) : DocInv env (start env) := by
  unfold FastExcel.start
  repeat' split
  all_goals constructor <;> simp [dead, Flow, rendered, cells, Env.columns, *]

theorem rendered_snoc (sw : List (String × Row)) (x : String × Row) (h : sw ≠ []) :
    List.map Prod.snd (sw ++ [x]).tail = List.map Prod.snd sw.tail ++ [x.2] := by
  cases sw with
  | nil => exact absurd rfl h
  | cons y ys => simp

set_option maxHeartbeats 1000000 in
theorem docInv_step {env : Env} {s s' : State} (hi : Inv s) (h : DocInv env s)
    (hs : Step env s s') : DocInv env s' := by
  obtain ⟨h1, h2⟩ := h
  have h10 := hi.rowNum_eq
  have h6 := hi.signals
  clear hi
  obtain ⟨pc, scans, values, cb, n, ch, closes, ech, wpc, rowNum, sw, sent, received, es, ds⟩ := s
  cases hs <;> simp only [State.outcome, Flow, rendered] at * <;> subst_vars <;> constructor <;>
    simp only [Flow, rendered] at * <;>
    first
      | assumption
      | (simp_all; done)
      | skip
  case setRowFail.flow => exact ⟨_, _, h2, ‹_›⟩
  case setRowOk.doc_eq =>
    intro _
    have hsw := h1 (by simp)
    have hne : sw ≠ [] := by rw [← hsw]; simp
    have hlen : sw.length = (List.map Prod.snd sw.tail).length + 1 := by
      conv_lhs => rw [← hsw]
      simp [cells_length]
    rw [rendered_snoc _ _ hne, cells_append, ← List.cons_append, hsw]
    have hr := h10 (by simp)
    have : 2 + (List.map Prod.snd sw.tail).length = rowNum := by omega
    rw [this]
  case setRowOk.flow =>
    have hsw := h1 (by simp)
    have hne : sw ≠ [] := by rw [← hsw]; simp
    rw [rendered_snoc _ _ hne]
    simpa using h2

theorem docInv_exec (env : Env) (sched : List Tid) : DocInv env (exec env sched) :=
  (run_invariant (fun s => Inv s ∧ DocInv env s)
    (fun _ _ h hs => ⟨inv_step h.1 hs, docInv_step h.1 h.2 hs⟩) sched
    ⟨inv_start env, docInv_start env⟩).2

theorem drop_cons_facts {α : Type} {l : List α} {n : Nat} {x : α} {xs : List α}
    (h : l.drop n = x :: xs) :
    l.drop (n + 1) = xs ∧ n < l.length ∧ l.take (n + 1) = l.take n ++ [x] := by
  have hlt : n < l.length := by
    by_contra hge
    rw [List.drop_eq_nil_of_le (Nat.le_of_not_lt hge)] at h
    cases h
  refine ⟨?_, hlt, ?_⟩
  · have := congrArg List.tail h
    simpa using this
  · have hx : l[n]? = some x := by
      have := congrArg (fun t => t[0]?) h
      simpa using this
    rw [List.take_succ, hx]
    rfl

theorem srcInv_start (env : Env) : SrcInv env (start env) := by
  unfold FastExcel.start
  repeat' split
  all_goals constructor <;> simp [dead, consumedFail, afterLoop, pending, batching, Env.columns, *]

set_option maxHeartbeats 1000000 in
theorem srcInv_step {env : Env} {s s' : State} (h : SrcInv env s) (hs : Step env s s') :
    SrcInv env s' := by
  obtain ⟨h1, h2, h3, h4, h5, h6⟩ := h
  obtain ⟨pc, scans, values, cb, n, ch, closes, ech, wpc, rowNum, sw, sent, received, es, ds⟩ := s
  cases hs <;> simp only [State.outcome, pending] at * <;> subst_vars <;>
    simp only [consumedFail, afterLoop, batching, List.nil_append, List.singleton_append,
      if_true, if_false] at * <;>
    constructor <;>
    simp only [consumedFail, afterLoop, batching, pending, List.nil_append, List.singleton_append,
      if_true, if_false, scanInto_length, List.length_append, List.flatten_append] at * <;>
    first
      | assumption
      | omega
      | (simp_all; done)
      | (simp_all; omega)
      | skip
  all_goals
    obtain ⟨hd1, hd2, hd3⟩ := drop_cons_facts h1
    first
      | exact hd1
      | omega
      | (intro x hx
         rw [hd3] at hx
         simp only [List.mem_append, List.mem_singleton] at hx
         rcases hx with hx | hx
         · exact h3 x hx
         · exact ⟨_, hx⟩)

theorem srcInv_exec (env : Env) (sched : List Tid) : SrcInv env (exec env sched) :=
  run_invariant (SrcInv env) (fun _ _ h hs => srcInv_step h hs) sched (srcInv_start env)

theorem chunkSizes_full {B n : Nat} (hB : 0 < B) (sent : List Batch)
    (hall : ∀ b ∈ sent, b.length = B) (hn : sent.length * B = n) :
    sent.map List.length = chunkSizes n B := by
  subst hn
  unfold chunkSizes
  rw [Nat.mul_div_cancel _ hB, Nat.mul_mod_left]
  simp only [if_true, List.append_nil]
  rw [List.eq_replicate_iff]
  refine ⟨by simp, ?_⟩
  intro x hx
  obtain ⟨b, hb, rfl⟩ := List.mem_map.1 hx
  exact hall b hb

theorem chunkSizes_last {B n : Nat} (sent : List Batch) (cb : Batch)
    (hall : ∀ b ∈ sent, b.length = B) (hc0 : 0 < cb.length) (hcB : cb.length < B)
    (hn : sent.length * B + cb.length = n) :
    (sent ++ [cb]).map List.length = chunkSizes n B := by
  subst hn
  have hB : 0 < B := by omega
  unfold chunkSizes
  have hdiv : (sent.length * B + cb.length) / B = sent.length := by
    rw [Nat.add_comm, Nat.add_mul_div_right _ _ hB, Nat.div_eq_of_lt hcB, Nat.zero_add]
  have hmod : (sent.length * B + cb.length) % B = cb.length := by
    rw [Nat.add_comm, Nat.add_mul_mod_self_right, Nat.mod_eq_of_lt hcB]
  rw [hdiv, hmod, if_neg (by omega)]
  simp only [List.map_append, List.map_cons, List.map_nil]
  congr 1
  rw [List.eq_replicate_iff]
  refine ⟨by simp, ?_⟩
  intro x hx
  obtain ⟨b, hb, rfl⟩ := List.mem_map.1 hx
  exact hall b hb

theorem batchInv_start (env : Env) (hB : 0 < env.batchSize) : BatchInv env (start env) := by
  unfold FastExcel.start
  repeat' split
  all_goals constructor <;> simp [dead, batching, hB]

set_option maxHeartbeats 1000000 in
theorem batchInv_step {env : Env} (hB : 0 < env.batchSize) {s s' : State}
    (h : BatchInv env s) (hs : Step env s s') : BatchInv env s' := by
  obtain ⟨h1, h2, h3, h4, h5, h6⟩ := h
  obtain ⟨pc, scans, values, cb, n, ch, closes, ech, wpc, rowNum, sw, sent, received, es, ds⟩ := s
  cases hs <;> simp only [State.outcome] at * <;> subst_vars <;> constructor <;>
    simp only [batching, List.length_append, List.length_cons, List.length_nil] at * <;>
    first
      | assumption
      | omega
      | (simp_all; done)
      | (simp_all; omega)
      | skip
  case endClose.sizes =>
    intro _
    have hcb : cb.length = 0 := by omega
    exact chunkSizes_full hB sent (h1 trivial) (by have := h2 trivial; omega)
  case sendFull.full =>
    intro _ b hb
    rcases List.mem_append.1 hb with hb | hb
    · exact h1 trivial b hb
    · rw [List.mem_singleton.1 hb]; exact h4 trivial
  case sendFull.count =>
    intro _
    have := h2 trivial
    have := h4 trivial
    rw [Nat.add_mul]
    omega
  case sendLast.sizes =>
    intro _
    exact chunkSizes_last sent cb (h1 trivial) (h5 trivial) (h3 trivial (by simp)) (h2 trivial)

theorem batchInv_exec (env : Env) (hB : 0 < env.batchSize) (sched : List Tid) :
    BatchInv env (exec env sched) :=
  run_invariant (BatchInv env) (fun _ _ h hs => batchInv_step hB h hs) sched
    (batchInv_start env hB)

/-! ## Exit reasons, termination and progress -/

theorem exitInv_start (env : Env) : ExitInv env (start env) := by
  unfold FastExcel.start ExitInv
  repeat' split
  all_goals simp_all [dead]

theorem exitInv_step {env : Env} {s s' : State} (h : ExitInv env s) (hs : Step env s s') :
    ExitInv env s' := by
  unfold ExitInv at *
  obtain ⟨pc, scans, values, cb, n, ch, closes, ech, wpc, rowNum, sw, sent, received, es, ds⟩ := s
  cases hs <;> simp only [State.outcome] at * <;> subst_vars <;>
    first
      | assumption
      | (simp_all; done)
      | (cases pc <;> simp_all; done)

theorem exitInv_exec (env : Env) (sched : List Tid) : ExitInv env (exec env sched) :=
  run_invariant (ExitInv env) (fun _ _ h hs => exitInv_step h hs) sched (exitInv_start env)

theorem measure_step {env : Env} {s s' : State} (hs : Step env s s') : measure s' < measure s := by
  obtain ⟨pc, scans, values, cb, n, ch, closes, ech, wpc, rowNum, sw, sent, received, es, ds⟩ := s
  cases hs <;> simp only [State.outcome, measure] at * <;> subst_vars <;>
    simp only [mainWeight, writerWeight, List.length_cons, List.length_append, List.length_nil,
      List.map_append, List.map_cons, List.map_nil, List.sum_append, List.sum_cons,
      List.sum_nil] <;> omega

theorem outcome_none_iff {s : State} : s.outcome = none ↔ ∀ o, s.pc ≠ .exited o := by
  unfold State.outcome
  cases s.pc <;> simp

theorem main_moves {env : Env} {s : State}
    (h : s.pc = .next ∨ s.pc = .close ∨ s.pc = .finish
      ∨ ((s.pc = .sendFull ∨ s.pc = .sendLast) ∧ s.batchChan.length < batchChanCap)
      ∨ (s.pc = .select ∧ s.errorChan ≠ [])) :
    ∃ s', step env .main s = some s' := by
  obtain ⟨pc, scans, values, cb, n, ch, closes, ech, wpc, rowNum, sw, sent, received, es, ds⟩ := s
  simp only at h
  rcases h with h | h | h | ⟨h | h, hlen⟩ | ⟨h, hne⟩ <;> subst h <;> simp only [step, stepMain]
  · rcases scans with _ | ⟨x, rest⟩
    · by_cases hc : 0 < cb.length <;> simp [hc]
    · cases x <;> simp
  · simp
  · simp
  · simp [hlen]
  · simp [hlen]
  · rcases ech with _ | ⟨e, rest⟩
    · exact absurd rfl hne
    · simp

theorem writer_moves {env : Env} {s : State} (hlive : s.outcome = none)
    (h : (s.wpc = .recv ∧ (s.batchChan ≠ [] ∨ 0 < s.closes)) ∨ (∃ rest, s.wpc = .render rest)
      ∨ (∃ e, s.wpc = .sendErr e ∧ s.errorChan = []) ∨ (s.wpc = .sendDone ∧ s.pc = .select)) :
    ∃ s', step env .writer s = some s' := by
  rw [outcome_none_iff] at hlive
  obtain ⟨pc, scans, values, cb, n, ch, closes, ech, wpc, rowNum, sw, sent, received, es, ds⟩ := s
  simp only at h hlive
  have hpc : ∀ (x : Option State), (match pc with | .exited _ => none | _ => x) = x := by
    intro x
    cases pc with
    | exited o => exact absurd rfl (hlive o)
    | _ => rfl
  simp only [step, stepWriter, hpc]
  rcases h with ⟨h, hch⟩ | ⟨rest, h⟩ | ⟨e, h, hch⟩ | ⟨h, hp⟩ <;> subst h
  · rcases ch with _ | ⟨b, rest⟩
    · simp at hch; simp [hch]
    · simp
  · rcases rest with _ | ⟨row, rest⟩
    · simp
    · simp only
      cases env.setRow sw (env.coordinatesToCellName 1 rowNum) row <;> simp
  · subst hch; simp [errorChanCap]
  · subst hp; simp

theorem progress {env : Env} (hset : env.RendersAll) {s : State} (hi : Inv s)
    (hd : DocInv env s) (hlive : s.outcome = none) :
    ∃ t s', step env t s = some s' := by
  have hflow := hd.flow
  unfold Flow at hflow
  have hne := outcome_none_iff.1 hlive
  -- the writer cannot have failed
  have hw : s.wpc = .recv ∨ (∃ rest, s.wpc = .render rest) ∨ s.wpc = .sendDone
      ∨ (s.wpc = .returned ∧ tookDone s.pc) := by
    have h9 := hi.not_started
    have h6 := hi.signals
    have h4 := hi.done_eq
    cases hw : s.wpc with
    | notStarted =>
      have := h9.1 hw
      revert this hne
      cases s.pc <;> simp [diedEarly]
    | recv => simp
    | render rest => simp
    | sendErr e =>
      rw [hw] at hflow
      obtain ⟨row, rest, -, hfail⟩ := hflow
      rw [hset] at hfail
      cases hfail
    | sendDone => simp
    | returned =>
      rw [hw] at hflow
      have hes : s.errSignals = [] := by
        rcases hes : s.errSignals with _ | ⟨e, es⟩
        · rfl
        · obtain ⟨row, rest, -, hfail⟩ := hflow.2 e (by simp [hes])
          rw [hset] at hfail
          cases hfail
      rw [hw, hes] at h6
      simp only [List.length_nil, Nat.zero_add, if_true] at h6
      rw [h6] at h4
      by_cases hd : tookDone s.pc
      · simp [hd]
      · simp [hd] at h4
  have hcl := hi.closes_eq
  rcases hpc : s.pc with _ | _ | _ | _ | _ | _ | o
  · exact ⟨_, main_moves (Or.inl hpc)⟩
  · by_cases hlen : s.batchChan.length < batchChanCap
    · exact ⟨_, main_moves (Or.inr (Or.inr (Or.inr (Or.inl ⟨Or.inl hpc, hlen⟩))))⟩
    · have hch : s.batchChan ≠ [] := by
        intro h0; rw [h0] at hlen; simp [batchChanCap] at hlen
      rcases hw with hw | hw | hw | ⟨hw, hdone⟩
      · exact ⟨_, writer_moves hlive (Or.inl ⟨hw, Or.inl hch⟩)⟩
      · exact ⟨_, writer_moves hlive (Or.inr (Or.inl hw))⟩
      · have := (hi.at_done hw).1; rw [hpc] at this; cases this
      · rw [hpc] at hdone; simp [tookDone] at hdone
  · by_cases hlen : s.batchChan.length < batchChanCap
    · exact ⟨_, main_moves (Or.inr (Or.inr (Or.inr (Or.inl ⟨Or.inr hpc, hlen⟩))))⟩
    · have hch : s.batchChan ≠ [] := by
        intro h0; rw [h0] at hlen; simp [batchChanCap] at hlen
      rcases hw with hw | hw | hw | ⟨hw, hdone⟩
      · exact ⟨_, writer_moves hlive (Or.inl ⟨hw, Or.inl hch⟩)⟩
      · exact ⟨_, writer_moves hlive (Or.inr (Or.inl hw))⟩
      · have := (hi.at_done hw).1; rw [hpc] at this; cases this
      · rw [hpc] at hdone; simp [tookDone] at hdone
  · exact ⟨_, main_moves (Or.inr (Or.inl hpc))⟩
  · rw [hpc] at hcl
    rcases hw with hw | hw | hw | ⟨hw, hdone⟩
    · exact ⟨_, writer_moves hlive (Or.inl ⟨hw, Or.inr (by rw [hcl]; simp [closesAt])⟩)⟩
    · exact ⟨_, writer_moves hlive (Or.inr (Or.inl hw))⟩
    · exact ⟨_, writer_moves hlive (Or.inr (Or.inr (Or.inr ⟨hw, hpc⟩)))⟩
    · rw [hpc] at hdone; simp [tookDone] at hdone
  · exact ⟨_, main_moves (Or.inr (Or.inr (Or.inl hpc)))⟩
  · exact absurd hpc (hne o)

theorem run_append (env : Env) (a b : List Tid) (s : State) :
    run env (a ++ b) s = run env b (run env a s) := by
  induction a generalizing s with
  | nil => rfl
  | cons t ts ih => simp [run, ih]

theorem exec_append (env : Env) (a b : List Tid) :
    exec env (a ++ b) = run env b (exec env a) :=
  run_append env a b _

/-- When `SetRow` accepts every row, every state of a run can be driven on
until the process exits. -/
theorem exits_eventually {env : Env} (hset : env.RendersAll) :
    ∀ (k : Nat) (s : State), measure s ≤ k → Inv s → DocInv env s →
      ∃ more, (run env more s).outcome ≠ none := by
  intro k
  induction k with
  | zero =>
    intro s hk hi hd
    refine ⟨[], ?_⟩
    intro hlive
    obtain ⟨t, s', hst⟩ := progress hset hi hd hlive
    have := measure_step (step_sound hst)
    omega
  | succ k ih =>
    intro s hk hi hd
    by_cases hlive : s.outcome = none
    · obtain ⟨t, s', hst⟩ := progress hset hi hd hlive
      have hlt := measure_step (step_sound hst)
      obtain ⟨more, hmore⟩ := ih s' (by omega) (inv_step hi (step_sound hst))
        (docInv_step hi hd (step_sound hst))
      refine ⟨t :: more, ?_⟩
      simpa [run, advance, hst] using hmore
    · exact ⟨[], hlive⟩

/-! ## Facts about finished runs -/

theorem step_alive {env : Env} {s s' : State} (hs : Step env s s') :
    diedEarly s.pc = false ∧ diedEarly s'.pc = false := by
  obtain ⟨pc, scans, values, cb, n, ch, closes, ech, wpc, rowNum, sw, sent, received, es, ds⟩ := s
  cases hs <;> simp only [State.outcome] at * <;> subst_vars <;>
    first
      | (simp [diedEarly]; done)
      | (cases pc <;> simp_all [diedEarly]; done)

theorem alive_exec {env : Env} (h : (start env).pc = .next) (sched : List Tid) :
    diedEarly (exec env sched).pc = false :=
  run_invariant (fun s => diedEarly s.pc = false) (fun _ _ _ hs => (step_alive hs).2) sched
    (by simp [h, diedEarly])

theorem started_exec {env : Env} (h : (start env).pc = .next) (sched : List Tid) :
    (exec env sched).wpc ≠ .notStarted := by
  intro hw
  have := (inv_exec env sched).not_started.1 hw
  rw [alive_exec h sched] at this
  cases this

theorem no_scan_exit {env : Env} {rows : List Row} (hsrc : env.scans = rows.map ScanResult.ok)
    (sched : List Tid) (e : Err) : (exec env sched).pc ≠ .exited (.fatal .scan e) := by
  intro hpc
  have hpos := (srcInv_exec env sched).pos
  rw [hpc] at hpos
  have hmem : ScanResult.fail e ∈ env.scans := by
    refine List.mem_of_mem_drop (?_ : _ ∈ env.scans.drop (exec env sched).totalRows)
    rw [hpos]
    simp [consumedFail]
  rw [hsrc] at hmem
  simp at hmem

theorem totalRows_final {env : Env} {rows : List Row}
    (hsrc : env.scans = rows.map ScanResult.ok) (sched : List Tid)
    (hpc : batching (exec env sched).pc = false) : (exec env sched).totalRows = rows.length := by
  have hs := srcInv_exec env sched
  have hafter : afterLoop (exec env sched).pc = true := by
    revert hpc
    generalize (exec env sched).pc = pc
    intro hpc
    rcases pc with _ | _ | _ | _ | _ | _ | (⟨site, e⟩ | n) <;>
      first
        | rfl
        | (cases site <;> simp_all [batching, afterLoop]; done)
        | (simp_all [batching, afterLoop]; done)
  have hpos := hs.pos
  rw [hs.after hafter] at hpos
  have hcf : consumedFail (exec env sched).pc = [] := by
    revert hpc
    generalize (exec env sched).pc = pc
    intro hpc
    rcases pc with _ | _ | _ | _ | _ | _ | (⟨site, e⟩ | n) <;>
      first
        | rfl
        | (cases site <;> simp_all [batching, consumedFail]; done)
  rw [hcf] at hpos
  have hge : env.scans.length ≤ (exec env sched).totalRows := by
    simpa [List.drop_eq_nil_iff] using hpos
  have hle := hs.le
  have : env.scans.length = rows.length := by rw [hsrc]; simp
  omega

theorem outcome_eq_some {s : State} {o : Outcome} : s.outcome = some o ↔ s.pc = .exited o := by
  unfold State.outcome
  cases s.pc <;> simp

/-- What holds once the `select` has taken `<-doneChan`. -/
theorem done_facts (env : Env) (sched : List Tid) (h : tookDone (exec env sched).pc = true) :
    (exec env sched).batchChan = [] ∧ (exec env sched).received = (exec env sched).sent
      ∧ (exec env sched).errSignals = [] ∧ (exec env sched).doneSignals = 1
      ∧ (exec env sched).wpc = .returned ∧ (exec env sched).closes = 1
      ∧ rendered (exec env sched) = (exec env sched).sent.flatten
      ∧ batching (exec env sched).pc = false := by
  have hi := inv_exec env sched
  have hflow := (docInv_exec env sched).flow
  generalize exec env sched = s at *
  have hch := hi.after_done h
  have hq := hi.queue
  rw [hch, List.append_nil] at hq
  have hds := hi.done_eq
  rw [if_pos h] at hds
  have hsig := hi.signals
  rw [hds] at hsig
  have hw : s.wpc = .returned := by
    by_contra hw
    rw [if_neg hw] at hsig
    omega
  rw [if_pos hw] at hsig
  have hes : s.errSignals = [] := List.eq_nil_of_length_eq_zero (by omega)
  unfold Flow at hflow
  rw [hw] at hflow
  have hcl := hi.closes_eq
  refine ⟨hch, hq, hes, hds, hw, ?_, by rw [← hq]; exact hflow.1 hes, ?_⟩
  · rw [hcl]
    revert h
    rcases s.pc with _ | _ | _ | _ | _ | _ | (⟨site, e⟩ | n) <;>
      first
        | (simp [tookDone, closesAt]; done)
        | (cases site <;> simp [tookDone, closesAt]; done)
  · revert h
    rcases s.pc with _ | _ | _ | _ | _ | _ | (⟨site, e⟩ | n) <;>
      first
        | (simp [tookDone, batching]; done)
        | (cases site <;> simp [tookDone, batching]; done)

theorem clean_outcome {env : Env} {rows : List Row} (hc : env.Clean rows) (sched : List Tid)
    {o : Outcome} (ho : (exec env sched).outcome = some o) : o = .completed rows.length := by
  rw [outcome_eq_some] at ho
  have halive := alive_exec hc.starts sched
  have hexit := exitInv_exec env sched
  have hi := inv_exec env sched
  have hflow := (docInv_exec env sched).flow
  have hscan := no_scan_exit hc.src sched
  rcases o with ⟨site, e⟩ | n
  · cases site
    case scan => exact absurd ho (hscan e)
    case writer =>
      have herr := hi.err_eq
      rw [ho] at herr
      simp only [tookErr, Option.toList] at herr
      have hsig := hi.signals
      have hw : (exec env sched).wpc = .returned := by
        by_contra hw
        rw [if_neg hw, herr] at hsig
        simp at hsig
      unfold Flow at hflow
      rw [hw] at hflow
      obtain ⟨row, rest, -, hfail⟩ := hflow.2 e (by rw [herr]; simp)
      rw [hc.renders] at hfail
      cases hfail
    case flush =>
      unfold ExitInv at hexit
      rw [ho] at hexit
      simp only [hc.flushes] at hexit
      cases hexit
    case saveAs =>
      unfold ExitInv at hexit
      rw [ho] at hexit
      simp only [hc.saves] at hexit
      cases hexit.2
    all_goals
      rw [ho] at halive
      simp [diedEarly] at halive
  · unfold ExitInv at hexit
    rw [ho] at hexit
    simp only at hexit
    rw [hexit.1, totalRows_final hc.src sched (by rw [ho]; rfl)]

/-- In a clean environment every run can be continued to the summary report. -/
theorem clean_completes {env : Env} {rows : List Row} (hc : env.Clean rows) (sched : List Tid) :
    ∃ more, (exec env (sched ++ more)).outcome = some (.completed rows.length) := by
  obtain ⟨more, hmore⟩ := exits_eventually hc.renders _ (exec env sched) (Nat.le_refl _)
    (inv_exec env sched) (docInv_exec env sched)
  refine ⟨more, ?_⟩
  rw [← exec_append] at hmore
  cases ho : (exec env (sched ++ more)).outcome with
  | none => exact absurd ho hmore
  | some o => rw [clean_outcome hc _ ho]

theorem ceil_eq (n B : Nat) (hB : 0 < B) :
    (n + B - 1) / B = n / B + (if n % B = 0 then 0 else 1) := by
  have hn := Nat.div_add_mod n B
  have hr := Nat.mod_lt n hB
  generalize n / B = q at *
  generalize n % B = r at *
  have hqB : q * B = B * q := Nat.mul_comm q B
  by_cases h0 : r = 0
  · rw [if_pos h0, Nat.add_zero]
    apply Nat.div_eq_of_lt_le
    · omega
    · rw [Nat.succ_mul]; omega
  · rw [if_neg h0]
    apply Nat.div_eq_of_lt_le
    · rw [Nat.add_mul]; omega
    · rw [Nat.succ_mul, Nat.add_mul]; omega

theorem chunkSizes_length (n B : Nat) (hB : 0 < B) : (chunkSizes n B).length = (n + B - 1) / B := by
  rw [ceil_eq n B hB]
  unfold chunkSizes
  by_cases h0 : n % B = 0 <;> simp [h0]

theorem chunkSizes_mem (n B : Nat) (hB : 0 < B) (x : Nat) (hx : x ∈ chunkSizes n B) :
    0 < x ∧ x ≤ B := by
  unfold chunkSizes at hx
  have hr := Nat.mod_lt n hB
  rcases List.mem_append.1 hx with hx | hx
  · rw [(List.mem_replicate.1 hx).2]; omega
  · by_cases h0 : n % B = 0
    · simp [h0] at hx
    · simp [h0] at hx; omega

theorem chunkSizes_dropLast (n B : Nat) (x : Nat) (hx : x ∈ (chunkSizes n B).dropLast) :
    x = B := by
  unfold chunkSizes at hx
  by_cases h0 : n % B = 0
  · simp only [h0, if_true, List.append_nil] at hx
    exact (List.mem_replicate.1 (List.dropLast_subset _ hx)).2
  · simp only [h0, if_false, List.dropLast_concat] at hx
    exact (List.mem_replicate.1 hx).2

/-! ## Batch counts and sizes (C1, C6) -/

theorem plainEnv_clean (columns : List String) (rows : List Row) (B : Nat) :
    (plainEnv columns rows B).Clean rows :=
  ⟨rfl, rfl, fun _ _ _ => rfl, fun _ => rfl, fun _ => rfl⟩

theorem sent_shape {env : Env} (hB : 0 < env.batchSize) (sched : List Tid) :
    (∀ b ∈ (exec env sched).sent, 0 < b.length ∧ b.length ≤ env.batchSize)
      ∧ ∀ b ∈ (exec env sched).sent.dropLast, b.length = env.batchSize := by
  have hb := batchInv_exec env hB sched
  by_cases hpc : batching (exec env sched).pc = true
  · have hfull := hb.full hpc
    refine ⟨fun b hb' => ?_, fun b hb' => hfull b (List.dropLast_subset _ hb')⟩
    rw [hfull b hb']
    exact ⟨hB, Nat.le_refl _⟩
  · have hsz := hb.sizes (by simpa using hpc)
    refine ⟨fun b hb' => ?_, fun b hb' => ?_⟩
    · apply chunkSizes_mem _ _ hB
      rw [← hsz]
      exact List.mem_map_of_mem _ hb'
    · apply chunkSizes_dropLast (exec env sched).totalRows
      rw [← hsz, ← List.map_dropLast]
      exact List.mem_map_of_mem _ hb'

theorem sent_sizes {env : Env} {rows : List Row} (hsrc : env.scans = rows.map ScanResult.ok)
    (hB : 0 < env.batchSize) (sched : List Tid) (hpc : batching (exec env sched).pc = false) :
    (exec env sched).sent.map List.length = chunkSizes rows.length env.batchSize := by
  rw [← totalRows_final hsrc sched hpc]
  exact (batchInv_exec env hB sched).sizes hpc

theorem completed_not_batching {s : State} {n : Nat} (h : s.outcome = some (.completed n)) :
    batching s.pc = false := by
  rw [outcome_eq_some] at h
  rw [h]
  rfl

/-- C6: for a source of `R` rows read without error and `B > 0`, every batch
sent on `batchChan` has between 1 and `B` rows and every batch but the last
has exactly `B`; once `main` is past the batching loop the sizes are `R / B`
times `B` followed by the remainder if there is one.  For `R = 25000` and
`B = 10000` the sizes are 10000, 10000, 5000 in that order with
`totalRows = 25000`, and when nothing else fails every run can be continued
to the report of 25000 rows. -/
theorem batch_sizes (env : Env) (rows : List Row)
    (hsrc : env.scans = rows.map ScanResult.ok) (hB : 0 < env.batchSize) :
    (∀ sched,
      (∀ b ∈ (exec env sched).sent, 0 < b.length ∧ b.length ≤ env.batchSize)
        ∧ (∀ b ∈ (exec env sched).sent.dropLast, b.length = env.batchSize)
        ∧ (batching (exec env sched).pc = false →
            (exec env sched).sent.map List.length = chunkSizes rows.length env.batchSize))
    ∧ (rows.length = 25000 → env.batchSize = 10000 →
        (∀ sched, batching (exec env sched).pc = false →
          (exec env sched).sent.map List.length = [10000, 10000, 5000]
            ∧ (exec env sched).totalRows = 25000)
        ∧ (env.Clean rows → ∀ sched, ∃ more,
            (exec env (sched ++ more)).outcome = some (.completed 25000)
              ∧ (exec env (sched ++ more)).sent.map List.length = [10000, 10000, 5000])) := by
  refine ⟨fun sched => ⟨(sent_shape hB sched).1, (sent_shape hB sched).2,
    sent_sizes hsrc hB sched⟩, fun hR hBv => ?_⟩
  have hchunks : chunkSizes rows.length env.batchSize = [10000, 10000, 5000] := by
    rw [hR, hBv]; decide
  refine ⟨fun sched hpc => ?_, fun hc sched => ?_⟩
  · rw [sent_sizes hsrc hB sched hpc, totalRows_final hsrc sched hpc]
    exact ⟨hchunks, hR⟩
  · obtain ⟨more, hmore⟩ := clean_completes hc sched
    refine ⟨more, by rw [hmore, hR], ?_⟩
    rw [sent_sizes hsrc hB _ (completed_not_batching hmore)]
    exact hchunks

theorem batch_sizes_witness :
    scenarioEnv.scans = (List.replicate 25000 [Value.int 7]).map ScanResult.ok
      ∧ 0 < scenarioEnv.batchSize
      ∧ (List.replicate 25000 [Value.int 7]).length = 25000
      ∧ scenarioEnv.batchSize = 10000
      ∧ scenarioEnv.Clean (List.replicate 25000 [Value.int 7])
      ∧ ∃ more, (exec scenarioEnv more).outcome = some (.completed 25000)
          ∧ (exec scenarioEnv more).sent.map List.length = [10000, 10000, 5000] :=
  ⟨rfl, by decide, List.length_replicate _ _, rfl, plainEnv_clean _ _ _,
    ((batch_sizes scenarioEnv (List.replicate 25000 [Value.int 7]) rfl (by decide)).2
      (List.length_replicate _ _) rfl).2 (plainEnv_clean _ _ _) []⟩

/-! ## Row order (C2) -/

theorem start_columns {env : Env} {columns : List String} (h : env.rowsColumns = .ok columns) :
    env.columns = columns := by
  unfold Env.columns
  rw [h]

/-- C7: when the source returns a column list, the row written at `A1` has
one cell per column, cell `i` holding the `i`-th column name; the document is
empty (the process exited before line 66) or begins with that header row,
all data rows coming after it; the header is in place when the batching loop
starts; and for a source with no rows a successful run reports 0 rows, sends
no batch and leaves the header as the only row, such a run being reachable
when nothing fails. -/
theorem header_row_first (env : Env) (columns : List String)
    (hcols : env.rowsColumns = .ok columns) :
    (headerRow columns).length = columns.length
    ∧ (∀ i (hi : i < columns.length), (headerRow columns)[i]? = some (Value.str columns[i]))
    ∧ (∀ sched, (exec env sched).streamWriter = []
        ∨ (exec env sched).streamWriter
            = ("A1", headerRow columns) :: cells env 2 (rendered (exec env sched)))
    ∧ ((start env).pc = .next →
        (start env).streamWriter = [("A1", headerRow columns)] ∧ (start env).sent = []
          ∧ (start env).wpc = .recv)
    ∧ (env.scans = [] → 0 < env.batchSize → ∀ sched n,
        (exec env sched).outcome = some (.completed n) →
          n = 0 ∧ (exec env sched).sent = []
            ∧ (exec env sched).streamWriter = [("A1", headerRow columns)])
    ∧ (env.Clean [] → ∀ sched, ∃ more,
        (exec env (sched ++ more)).outcome = some (.completed 0)) := by
  have hc := start_columns hcols
  refine ⟨?_, ?_, fun sched => ?_, fun hst => ?_, fun hsc hB sched n ho => ?_,
    fun hcl sched => clean_completes hcl sched⟩
  · rw [headerRow_eq, List.length_map]
  · intro i hi
    rw [headerRow_eq]
    simp [hi]
  · have hd := docInv_exec env sched
    by_cases hw : (exec env sched).wpc = .notStarted
    · left
      have hflow := hd.flow
      unfold Flow at hflow
      rw [hw] at hflow
      exact hflow
    · right
      rw [← hc]
      exact (hd.doc_eq hw).symm
  · revert hst
    unfold FastExcel.start
    rw [hcols]
    repeat' split
    all_goals simp_all [dead]
  · have hsrc : env.scans = ([] : List Row).map ScanResult.ok := by simpa using hsc
    have hnb := completed_not_batching ho
    have hsz := sent_sizes hsrc hB sched hnb
    have hsent : (exec env sched).sent = [] := by
      simpa [chunkSizes] using hsz
    have hpc := outcome_eq_some.1 ho
    have hd := done_facts env sched (by rw [hpc]; rfl)
    have hw : (exec env sched).wpc ≠ .notStarted := by rw [hd.2.2.2.2.1]; simp
    have hdoc := ((docInv_exec env sched).doc_eq hw).symm
    rw [hd.2.2.2.2.2.2.1, hsent, hc] at hdoc
    have hex := exitInv_exec env sched
    unfold ExitInv at hex
    rw [hpc] at hex
    refine ⟨?_, hsent, by simpa [cells] using hdoc⟩
    rw [hex.1, totalRows_final hsrc sched hnb]
    rfl

theorem header_row_first_witness :
    emptyEnv.rowsColumns = .ok ["id", "name"]
      ∧ headerRow ["id", "name"] = [Value.str "id", Value.str "name"]
      ∧ (exec emptyEnv emptyRun).outcome = some (.completed 0)
      ∧ (exec emptyEnv emptyRun).sent = []
      ∧ (exec emptyEnv emptyRun).streamWriter = [("A1", headerRow ["id", "name"])] :=
  ⟨rfl, by decide, by decide,
    ((header_row_first emptyEnv ["id", "name"] rfl).2.2.2.2.1 rfl (by decide) emptyRun 0
      (by decide)).2⟩

theorem main_blocked_when_full {env : Env} {s : State}
    (hpc : s.pc = .sendFull ∨ s.pc = .sendLast) (hlen : s.batchChan.length = batchChanCap) :
    step env .main s = none := by
  obtain ⟨pc, scans, values, cb, n, ch, closes, ech, wpc, rowNum, sw, sent, received, es, ds⟩ := s
  simp only at hpc hlen
  rcases hpc with h | h <;> subst h <;> simp [step, stepMain, hlen]

/-- C8: in every state of every run `batchChan` holds at most 10 batches, the
batches sent are at most 10 more than the batches received, and while 10
batches are buffered the send of `main` (line 102 or 108) does not complete. -/
theorem batchChan_bounded (env : Env) (sched : List Tid) :
    (exec env sched).batchChan.length ≤ 10
    ∧ (exec env sched).sent.length ≤ (exec env sched).received.length + 10
    ∧ ((exec env sched).pc = .sendFull ∨ (exec env sched).pc = .sendLast →
        (exec env sched).batchChan.length = 10 →
          step env .main (exec env sched) = none
            ∧ ∀ k, exec env (sched ++ List.replicate k .main) = exec env sched) := by
  have hi := inv_exec env sched
  have hcap : (exec env sched).batchChan.length ≤ 10 := hi.cap
  refine ⟨hcap, ?_, fun hpc hlen => ?_⟩
  · rw [← hi.queue, List.length_append]
    omega
  · have hblocked := @main_blocked_when_full env _ hpc hlen
    refine ⟨hblocked, fun k => ?_⟩
    rw [exec_append]
    induction k with
    | zero => rfl
    | succ k ih => simpa [List.replicate_succ, run, advance, hblocked] using ih

theorem batchChan_bounded_witness :
    ((exec floodEnv floodSched).pc = .sendFull ∨ (exec floodEnv floodSched).pc = .sendLast)
      ∧ (exec floodEnv floodSched).batchChan.length = 10
      ∧ step floodEnv .main (exec floodEnv floodSched) = none :=
  ⟨by decide, by decide,
    ((batchChan_bounded floodEnv floodSched).2.2 (by decide) (by decide)).1⟩

/-! ## The write cursor (C10) -/

theorem step_cursor {env : Env} {s s' : State} (hs : Step env s s') :
    (s'.streamWriter = s.streamWriter ∧ s'.rowNum = s.rowNum)
      ∨ ∃ row, s'.streamWriter = s.streamWriter ++ [(env.coordinatesToCellName 1 s.rowNum, row)]
          ∧ s'.rowNum = s.rowNum + 1 := by
  cases hs
  case setRowOk row rest hlive hw hset => exact Or.inr ⟨row, rfl, rfl⟩
  all_goals exact Or.inl ⟨rfl, rfl⟩

theorem advance_cursor (env : Env) (t : Tid) (s : State) :
    ((advance env t s).streamWriter = s.streamWriter ∧ (advance env t s).rowNum = s.rowNum)
      ∨ ∃ row, (advance env t s).streamWriter
            = s.streamWriter ++ [(env.coordinatesToCellName 1 s.rowNum, row)]
          ∧ (advance env t s).rowNum = s.rowNum + 1 := by
  unfold advance
  cases hst : step env t s with
  | none => exact Or.inl ⟨rfl, rfl⟩
  | some s' => exact step_cursor (step_sound hst)

theorem rowNum_mono (env : Env) (more : List Tid) (s : State) :
    s.rowNum ≤ (run env more s).rowNum := by
  induction more generalizing s with
  | nil => exact Nat.le_refl _
  | cons t ts ih =>
    refine Nat.le_trans ?_ (ih (advance env t s))
    rcases advance_cursor env t s with h | ⟨row, -, h⟩ <;> omega

theorem rowNum_eq_rendered (env : Env) (sched : List Tid) :
    (exec env sched).rowNum = 2 + (rendered (exec env sched)).length := by
  have hd := docInv_exec env sched
  by_cases hw : (exec env sched).wpc = .notStarted
  · have hflow := hd.flow
    unfold Flow at hflow
    rw [hw] at hflow
    have h2 : (exec env sched).wpc = .notStarted → (exec env sched).rowNum = 2 := by
      apply run_invariant (fun s => s.wpc = .notStarted → s.rowNum = 2)
      · intro s s' _ hs hw'
        cases hs <;> simp_all [State.outcome]
      · unfold FastExcel.start
        repeat' split
        all_goals simp [dead]
    simp [rendered, hflow, h2 hw]
  · have hlen := congrArg List.length (hd.doc_eq hw)
    rw [(inv_exec env sched).rowNum_eq hw, ← hlen]
    simp [cells_length]
    omega

/-- C10: `rowNum` starts at 2; a turn of either goroutine leaves it alone, or
renders one row at cell `(1, rowNum)` and adds exactly 1, so it never
decreases and always equals 2 plus the number of rows rendered; in every
successful run the total reported is `totalRows`, `rowNum` ends at
`2 + totalRows`, and that many rows were rendered; when nothing fails every
run can be continued to such an end. -/
theorem write_cursor (env : Env) :
    (start env).rowNum = 2
    ∧ (∀ sched t,
        ((exec env (sched ++ [t])).streamWriter = (exec env sched).streamWriter
            ∧ (exec env (sched ++ [t])).rowNum = (exec env sched).rowNum)
          ∨ ∃ row, (exec env (sched ++ [t])).streamWriter
                = (exec env sched).streamWriter
                    ++ [(env.coordinatesToCellName 1 (exec env sched).rowNum, row)]
              ∧ (exec env (sched ++ [t])).rowNum = (exec env sched).rowNum + 1)
    ∧ (∀ sched more, (exec env sched).rowNum ≤ (exec env (sched ++ more)).rowNum)
    ∧ (∀ sched, (exec env sched).rowNum = 2 + (rendered (exec env sched)).length)
    ∧ (∀ sched n, (exec env sched).outcome = some (.completed n) →
        n = (exec env sched).totalRows
          ∧ (exec env sched).rowNum = 2 + (exec env sched).totalRows
          ∧ (rendered (exec env sched)).length = (exec env sched).totalRows)
    ∧ (∀ rows, env.Clean rows → ∀ sched, ∃ more,
        (exec env (sched ++ more)).outcome = some (.completed rows.length)) := by
  refine ⟨?_, fun sched t => ?_, fun sched more => ?_, rowNum_eq_rendered env,
    fun sched n ho => ?_, fun rows hc sched => clean_completes hc sched⟩
  · unfold FastExcel.start
    repeat' split
    all_goals simp [dead]
  · rw [exec_append]
    exact advance_cursor env t (exec env sched)
  · rw [exec_append]
    exact rowNum_mono env more _
  · have hpc := outcome_eq_some.1 ho
    have hd := done_facts env sched (by rw [hpc]; rfl)
    have hex := exitInv_exec env sched
    unfold ExitInv at hex
    rw [hpc] at hex
    have htot := (srcInv_exec env sched).total
    simp only [pending, hd.2.2.2.2.2.2.2, List.length_nil, Nat.add_zero] at htot
    simp at htot
    have hr : (rendered (exec env sched)).length = (exec env sched).totalRows := by
      rw [hd.2.2.2.2.2.2.1]
      simpa using htot
    refine ⟨hex.1, ?_, hr⟩
    rw [rowNum_eq_rendered, hr]

theorem write_cursor_witness :
    (exec smallEnv smallRun).outcome = some (.completed 3)
      ∧ (exec smallEnv smallRun).rowNum = 2 + 3
      ∧ (exec smallEnv smallRun).totalRows = 3 :=
  ⟨by decide,
    by
      have h := (write_cursor smallEnv).2.2.2.2.1 smallRun 3 (by decide)
      have h3 : (exec smallEnv smallRun).totalRows = 3 := by decide
      exact ⟨h3 ▸ h.2.1, h3⟩⟩

/-! ## Closing `batchChan` (C5) and the terminal signals (C9) -/

theorem run_exited (env : Env) (more : List Tid) {s : State} (h : s.outcome ≠ none) :
    run env more s = s := by
  have hstuck : ∀ t, advance env t s = s := by
    intro t
    unfold advance
    cases hst : step env t s with
    | none => rfl
    | some s' =>
      exfalso
      apply h
      have hs := step_sound hst
      cases hs <;> simp_all [State.outcome]
  induction more with
  | nil => rfl
  | cons t ts ih => rw [run, hstuck t, ih]

theorem writer_frozen (env : Env) (more : List Tid) {s : State} (hw : s.wpc = .returned) :
    (run env more s).wpc = .returned ∧ (run env more s).received = s.received
      ∧ (run env more s).streamWriter = s.streamWriter
      ∧ (run env more s).errSignals = s.errSignals
      ∧ (run env more s).doneSignals = s.doneSignals := by
  apply run_invariant (fun s' => s'.wpc = .returned ∧ s'.received = s.received
      ∧ s'.streamWriter = s.streamWriter ∧ s'.errSignals = s.errSignals
      ∧ s'.doneSignals = s.doneSignals)
  · intro a b ha hab
    cases hab <;> simp_all
  · exact ⟨hw, rfl, rfl, rfl, rfl⟩

theorem closes_cases (env : Env) (sched : List Tid) :
    (exec env sched).closes ≤ 1
      ∧ ∀ o, (exec env sched).outcome = some o → (exec env sched).wpc ≠ .notStarted →
          ((∃ e, o = .fatal .scan e) ∧ (exec env sched).closes = 0
              ∧ (exec env sched).wpc ≠ .sendDone ∧ (exec env sched).doneSignals = 0)
            ∨ ((∀ e, o ≠ .fatal .scan e) ∧ (exec env sched).closes = 1) := by
  have hi := inv_exec env sched
  have hcl := hi.closes_eq
  have hns := hi.not_started
  refine ⟨?_, fun o ho hw => ?_⟩
  · rw [hcl]
    rcases (exec env sched).pc with _ | _ | _ | _ | _ | _ | (⟨site, e⟩ | n) <;>
      first
        | (simp [closesAt]; done)
        | (cases site <;> simp [closesAt]; done)
  · rw [outcome_eq_some] at ho
    rw [ho] at hcl hns
    rcases o with ⟨site, e⟩ | n
    · cases site
      case scan =>
        refine Or.inl ⟨⟨e, rfl⟩, by rw [hcl]; rfl, fun hsd => ?_, ?_⟩
        · have := (hi.at_done hsd).1
          rw [ho] at this
          cases this
        · have hdone := hi.done_eq
          rw [ho] at hdone
          simpa [tookDone] using hdone
      case writer => exact Or.inr ⟨by simp, by rw [hcl]; rfl⟩
      case flush => exact Or.inr ⟨by simp, by rw [hcl]; rfl⟩
      case saveAs => exact Or.inr ⟨by simp, by rw [hcl]; rfl⟩
      all_goals exact absurd (hns.2 rfl) hw
    · exact Or.inr ⟨by simp, by rw [hcl]; rfl⟩

/-- C5 fails: with the writer goroutine started and waiting at its receive,
a failing `rows.Scan` ends the process at line 91 with `batchChan` never
closed. -/
theorem scan_exit_leaves_batchChan_open :
    (exec scanFailEnv [main]).outcome
        = some (.fatal .scan "sql: Scan error on column index 0")
      ∧ (exec scanFailEnv [main]).wpc = .recv
      ∧ (exec scanFailEnv [main]).closes = 0
      ∧ (∀ more, exec scanFailEnv ([main] ++ more) = exec scanFailEnv [main]) :=
  ⟨by decide, by decide, by decide,
    fun more => by rw [exec_append]; exact run_exited _ more (by decide)⟩

/-- C5 as amended: `batchChan` is never closed more than once, and when the
process has exited after the writer goroutine was started, `batchChan` has
been closed exactly once unless the exit is the `log.Fatal` of a failed
`rows.Scan`, in which case it has not been closed and the writer has not
seen the end of the stream. -/
theorem batchChan_closed_once (env : Env) (sched : List Tid) :
    (exec env sched).closes ≤ 1
      ∧ ∀ o, (exec env sched).outcome = some o → (exec env sched).wpc ≠ .notStarted →
          ((∃ e, o = .fatal .scan e) ∧ (exec env sched).closes = 0
              ∧ (exec env sched).wpc ≠ .sendDone ∧ (exec env sched).doneSignals = 0)
            ∨ ((∀ e, o ≠ .fatal .scan e) ∧ (exec env sched).closes = 1) :=
  closes_cases env sched

theorem batchChan_closed_once_witness :
    (exec smallEnv smallRun).outcome = some (.completed 3)
      ∧ (exec smallEnv smallRun).wpc ≠ .notStarted
      ∧ (((∃ e, Outcome.completed 3 = .fatal .scan e) ∧ (exec smallEnv smallRun).closes = 0
            ∧ (exec smallEnv smallRun).wpc ≠ .sendDone
            ∧ (exec smallEnv smallRun).doneSignals = 0)
          ∨ ((∀ e, Outcome.completed 3 ≠ .fatal .scan e)
              ∧ (exec smallEnv smallRun).closes = 1)) :=
  ⟨by decide, by decide,
    (batchChan_closed_once smallEnv smallRun).2 (.completed 3) (by decide) (by decide)⟩

theorem signal_count (env : Env) (sched : List Tid) :
    (exec env sched).errSignals.length + (exec env sched).doneSignals ≤ 1 := by
  have h := (inv_exec env sched).signals
  by_cases hw : (exec env sched).wpc = .returned
  · rw [if_pos hw] at h; omega
  · rw [if_neg hw] at h; omega

theorem err_signal_origin (env : Env) (sched : List Tid) (e : Err)
    (he : e ∈ (exec env sched).errSignals) :
    (exec env sched).wpc = .returned
      ∧ ∃ row rest, rendered (exec env sched) ++ row :: rest = (exec env sched).received.flatten
          ∧ env.setRow (exec env sched).streamWriter
              (env.coordinatesToCellName 1 (exec env sched).rowNum) row = some e := by
  have h := (inv_exec env sched).signals
  have hflow := (docInv_exec env sched).flow
  have hw : (exec env sched).wpc = .returned := by
    by_contra hw
    rw [if_neg hw] at h
    have : (exec env sched).errSignals = [] := List.eq_nil_of_length_eq_zero (by omega)
    rw [this] at he
    cases he
  unfold Flow at hflow
  rw [hw] at hflow
  exact ⟨hw, hflow.2 e he⟩

theorem select_took (env : Env) (sched : List Tid) :
    (∀ e, (exec env sched).outcome = some (.fatal .writer e) →
        (exec env sched).errSignals = [e] ∧ (exec env sched).errorChan = []
          ∧ (exec env sched).doneSignals = 0)
      ∧ (tookDone (exec env sched).pc = true →
          (exec env sched).doneSignals = 1 ∧ (exec env sched).errSignals = []
            ∧ (exec env sched).errorChan = []) := by
  have hi := inv_exec env sched
  have hcount := signal_count env sched
  refine ⟨fun e ho => ?_, fun hd => ?_⟩
  · rw [outcome_eq_some] at ho
    have herr := hi.err_eq
    have hdone := hi.done_eq
    rw [ho] at herr hdone
    simp only [tookErr, tookDone, Option.toList, List.singleton_append] at herr hdone
    rw [herr] at hcount
    simp only [List.length_cons] at hcount
    have hch : (exec env sched).errorChan = [] := List.eq_nil_of_length_eq_zero (by omega)
    rw [hch] at herr
    exact ⟨herr, hch, by simpa using hdone⟩
  · have hf := done_facts env sched hd
    have herr := hi.err_eq
    rw [hf.2.2.1] at herr
    have hch : (exec env sched).errorChan = [] := by
      have := congrArg List.length herr
      simp only [List.length_nil, List.length_append] at this
      exact List.eq_nil_of_length_eq_zero (by omega)
    exact ⟨hf.2.2.2.1, hf.2.2.1, hch⟩

/-- C9 fails: after one row has been scanned the next `rows.Scan` fails and
the process exits at line 91; the writer goroutine has sent nothing on
`errorChan` and nothing on `doneChan`, and the `select` was never reached. -/
theorem scan_exit_emits_no_signal :
    (exec lateScanFailEnv [main, main]).outcome
        = some (.fatal .scan "sql: Scan error on column index 0")
      ∧ (exec lateScanFailEnv [main, main]).errSignals = []
      ∧ (exec lateScanFailEnv [main, main]).doneSignals = 0
      ∧ (∀ more, exec lateScanFailEnv ([main, main] ++ more)
          = exec lateScanFailEnv [main, main]) :=
  ⟨by decide, by decide, by decide,
    fun more => by rw [exec_append]; exact run_exited _ more (by decide)⟩

/-- C9 as amended: in every run the writer goroutine emits at most one
terminal signal, never both.  It has sent on `doneChan` only with `batchChan`
closed and drained and every sent row rendered, no `SetRow` error having
occurred; an error it has sent on `errorChan` is the error `SetRow` returned
for the first row it could not render, and from then on it receives and
renders nothing; when the `select` of `main` has taken the error, or has taken
`<-doneChan`, exactly that one signal had been emitted and the other channel
holds nothing. -/
theorem one_terminal_signal (env : Env) (sched : List Tid) :
    (exec env sched).errSignals.length + (exec env sched).doneSignals ≤ 1
    ∧ ((exec env sched).doneSignals = 1 →
        (exec env sched).closes = 1 ∧ (exec env sched).batchChan = []
          ∧ (exec env sched).received = (exec env sched).sent
          ∧ (exec env sched).errSignals = []
          ∧ rendered (exec env sched) = (exec env sched).sent.flatten)
    ∧ (∀ e ∈ (exec env sched).errSignals,
        (∃ row rest,
            rendered (exec env sched) ++ row :: rest = (exec env sched).received.flatten
              ∧ env.setRow (exec env sched).streamWriter
                  (env.coordinatesToCellName 1 (exec env sched).rowNum) row = some e)
          ∧ ∀ more, (exec env (sched ++ more)).received = (exec env sched).received
              ∧ (exec env (sched ++ more)).streamWriter = (exec env sched).streamWriter
              ∧ (exec env (sched ++ more)).errSignals = (exec env sched).errSignals
              ∧ (exec env (sched ++ more)).doneSignals = 0)
    ∧ (∀ e, (exec env sched).outcome = some (.fatal .writer e) →
        (exec env sched).errSignals = [e] ∧ (exec env sched).errorChan = []
          ∧ (exec env sched).doneSignals = 0)
    ∧ (tookDone (exec env sched).pc = true →
        (exec env sched).doneSignals = 1 ∧ (exec env sched).errSignals = []
          ∧ (exec env sched).errorChan = []) := by
  have hcount := signal_count env sched
  refine ⟨hcount, fun hd => ?_, fun e he => ?_, (select_took env sched).1,
    (select_took env sched).2⟩
  · have hdone := (inv_exec env sched).done_eq
    have htd : tookDone (exec env sched).pc = true := by
      by_contra htd
      rw [if_neg htd] at hdone
      omega
    have hf := done_facts env sched htd
    exact ⟨hf.2.2.2.2.2.1, hf.1, hf.2.1, hf.2.2.1, hf.2.2.2.2.2.2.1⟩
  · obtain ⟨hw, horigin⟩ := err_signal_origin env sched e he
    refine ⟨horigin, fun more => ?_⟩
    rw [exec_append]
    obtain ⟨-, h1, h2, h3, h4⟩ := writer_frozen env more hw
    refine ⟨h1, h2, h3, ?_⟩
    rw [h4]
    have : 0 < (exec env sched).errSignals.length := List.length_pos_of_mem he
    omega

theorem one_terminal_signal_witness :
    (exec secondRowFailsEnv secondRowFailsRun).outcome
        = some (.fatal .writer "stream writer: write failed")
      ∧ (exec secondRowFailsEnv secondRowFailsRun).errSignals = ["stream writer: write failed"]
      ∧ (exec secondRowFailsEnv secondRowFailsRun).errorChan = []
      ∧ (exec secondRowFailsEnv secondRowFailsRun).doneSignals = 0 :=
  ⟨by decide,
    (one_terminal_signal secondRowFailsEnv secondRowFailsRun).2.2.2.1
      "stream writer: write failed" (by decide)⟩

/-! ## Errors of the row source (C3) -/

theorem rowsErrEnv_clean : rowsErrEnv.Clean [[Value.int 1]] :=
  ⟨rfl, rfl, fun _ _ _ => rfl, fun _ => rfl, fun _ => rfl⟩

/-- C3 at a failing input: the cursor stops after one row with a non-nil
`rows.Err()`.  No run reports that error: the only outcome any schedule can
reach is the success report of 1 row, and the run shown sends the unfinished
batch of one row and reports `Total rows exported: 1`. -/
theorem rows_err_is_ignored :
    rowsErrEnv.rowsErr = some "driver: bad connection"
      ∧ (∀ sched o, (exec rowsErrEnv sched).outcome = some o → o = .completed 1)
      ∧ (exec rowsErrEnv rowsErrRun).outcome = some (.completed 1)
      ∧ (exec rowsErrEnv rowsErrRun).sent = [[[Value.int 1]]] :=
  ⟨rfl, fun sched _ ho => clean_outcome rowsErrEnv_clean sched ho, by decide, by decide⟩

/-- The `rows.Scan` half of C3: when `Scan` fails after `M` full batches and
`P < B` more rows, at most `M` batches are ever sent, the only outcome a run
can reach is `log.Fatal` with the error of `Scan`, and at that exit exactly
`M` batches have been sent while the `P` rows of the unfinished batch have
not. -/
theorem scan_error_reported (env : Env) (rows : List Row) (e : Err) (rest : List ScanResult)
    (M P : Nat) (hsrc : env.scans = rows.map ScanResult.ok ++ ScanResult.fail e :: rest)
    (hlen : rows.length = M * env.batchSize + P) (hP : P < env.batchSize)
    (hst : (start env).pc = .next) (sched : List Tid) :
    (exec env sched).sent.length ≤ M
      ∧ ∀ o, (exec env sched).outcome = some o →
          o = .fatal .scan e ∧ (exec env sched).sent.length = M
            ∧ (exec env sched).currentBatch.length = P
            ∧ (exec env sched).closes = 0 := by
  have hB : 0 < env.batchSize := by omega
  have hs := srcInv_exec env sched
  have hb := batchInv_exec env hB sched
  have halive := alive_exec hst sched
  -- the cursor never gets past the failing scan
  have hn : (exec env sched).totalRows ≤ rows.length := by
    by_contra hgt
    have hmem : ScanResult.fail e ∈ env.scans.take (exec env sched).totalRows := by
      rw [hsrc, List.take_append_eq_append_take]
      apply List.mem_append_right
      have : (exec env sched).totalRows - (rows.map ScanResult.ok).length
          = ((exec env sched).totalRows - rows.length - 1) + 1 := by
        simp only [List.length_map]; omega
      rw [this, List.take_succ_cons]
      exact List.mem_cons_self _ _
    obtain ⟨r, hr⟩ := hs.oks _ hmem
    cases hr
  have hdrop : env.scans.drop (exec env sched).totalRows ≠ [] := by
    intro h0
    have := List.drop_eq_nil_iff.1 h0
    rw [hsrc] at this
    simp only [List.length_append, List.length_map, List.length_cons] at this
    omega
  have hbat : batching (exec env sched).pc = true := by
    by_contra hnb
    have hnb' : batching (exec env sched).pc = false := by simpa using hnb
    have hafter : afterLoop (exec env sched).pc = true := by
      revert hnb'
      rcases (exec env sched).pc with _ | _ | _ | _ | _ | _ | (⟨site, e⟩ | n) <;>
        first
          | (simp [batching, afterLoop]; done)
          | (cases site <;> simp [batching, afterLoop]; done)
    have hcf : consumedFail (exec env sched).pc = [] := by
      revert hnb'
      rcases (exec env sched).pc with _ | _ | _ | _ | _ | _ | (⟨site, e⟩ | n) <;>
        first
          | (simp [batching, consumedFail]; done)
          | (cases site <;> simp [batching, consumedFail]; done)
    have hpos := hs.pos
    rw [hcf, hs.after hafter] at hpos
    exact hdrop hpos
  have hcount := hb.count hbat
  have hQ : (exec env sched).sent.length * env.batchSize ≤ M * env.batchSize + P := by omega
  have hle : (exec env sched).sent.length ≤ M := by
    by_contra hgt
    have : (M + 1) * env.batchSize ≤ (exec env sched).sent.length * env.batchSize :=
      Nat.mul_le_mul_right _ (by omega)
    rw [Nat.add_mul] at this
    omega
  refine ⟨hle, fun o ho => ?_⟩
  rw [outcome_eq_some] at ho
  have hcl := (inv_exec env sched).closes_eq
  rw [ho] at hbat halive hcl
  rcases o with ⟨site, e'⟩ | n
  case completed => simp [batching] at hbat
  cases site
  case scan =>
    have hpos := hs.pos
    rw [ho] at hpos
    simp only [consumedFail, List.singleton_append] at hpos
    have hlt := hb.cb_lt (by rw [ho]; rfl) (by rw [ho]; simp)
    -- the failing scan result sits at position `rows.length`
    have hn' : (exec env sched).totalRows = rows.length := by
      by_contra hne
      have hlt' : (exec env sched).totalRows < rows.length := by omega
      have h0 := congrArg (fun l => l[0]?) hpos
      simp only [List.getElem?_drop, List.getElem?_cons_zero, Nat.add_zero] at h0
      rw [hsrc, List.getElem?_append_left (by simpa using hlt')] at h0
      simp at h0
    have h0 := congrArg (fun l => l[0]?) hpos
    simp only [List.getElem?_drop, List.getElem?_cons_zero, Nat.add_zero] at h0
    rw [hsrc, hn', List.getElem?_append_right (by simp)] at h0
    simp at h0
    rw [hn', hlen] at hcount
    have hsl : (exec env sched).sent.length = M := by
      by_contra hne
      have hlt2 : (exec env sched).sent.length + 1 ≤ M := by omega
      have := Nat.mul_le_mul_right env.batchSize hlt2
      rw [Nat.add_mul] at this
      omega
    rw [hsl] at hcount
    exact ⟨by rw [h0], hsl, by omega, by rw [hcl]; rfl⟩
  all_goals first
    | (simp [batching] at hbat; done)
    | (simp [diedEarly] at halive; done)

/-- When `SetRow` accepts every row, every run over a source whose `Scan`
fails can be continued until `main` reports that error. -/
theorem scan_error_reached (env : Env) (rows : List Row) (e : Err) (rest : List ScanResult)
    (M P : Nat) (hsrc : env.scans = rows.map ScanResult.ok ++ ScanResult.fail e :: rest)
    (hlen : rows.length = M * env.batchSize + P) (hP : P < env.batchSize)
    (hst : (start env).pc = .next) (hset : env.RendersAll) (sched : List Tid) :
    ∃ more, (exec env (sched ++ more)).outcome = some (.fatal .scan e)
      ∧ (exec env (sched ++ more)).sent.length = M := by
  obtain ⟨more, hmore⟩ := exits_eventually hset _ (exec env sched) (Nat.le_refl _)
    (inv_exec env sched) (docInv_exec env sched)
  rw [← exec_append] at hmore
  refine ⟨more, ?_⟩
  cases ho : (exec env (sched ++ more)).outcome with
  | none => exact absurd ho hmore
  | some o =>
    obtain ⟨h1, h2, -⟩ :=
      (scan_error_reported env rows e rest M P hsrc hlen hP hst (sched ++ more)).2 o ho
    exact ⟨by rw [h1], h2⟩

/-! ## A failing writer and a full channel (C4) -/

theorem sent_pos {env : Env} (hB : 0 < env.batchSize) {s : State} (hb : BatchInv env s) :
    ∀ b ∈ s.sent, 0 < b.length := by
  intro b hb'
  by_cases hpc : batching s.pc = true
  · rw [hb.full hpc b hb']; exact hB
  · have hsz := hb.sizes (by simpa using hpc)
    apply (chunkSizes_mem s.totalRows _ hB _ _).1
    rw [← hsz]
    exact List.mem_map_of_mem _ hb'

theorem firstRowFails_start (env : Env) : FirstRowFails (start env) := by
  unfold FastExcel.start FirstRowFails
  repeat' split
  all_goals simp_all [dead]

theorem firstRowFails_step {env : Env} (hrej : env.RejectsData) (hB : 0 < env.batchSize)
    {s s' : State} (hi : Inv s) (hd : DocInv env s) (hb : BatchInv env s)
    (h : FirstRowFails s) (hs : Step env s s') : FirstRowFails s' := by
  have hpos := sent_pos hB hb
  have hq := hi.queue
  have hdoc := hd.doc_eq
  clear hi hd hb
  unfold FirstRowFails at *
  obtain ⟨pc, scans, values, cb, n, ch, closes, ech, wpc, rowNum, sw, sent, received, es, ds⟩ := s
  cases hs <;> simp only [State.outcome] at * <;> subst_vars <;>
    first
      | assumption
      | (simp_all; done)
      | skip
  case recv batch rest hlive =>
    refine ⟨?_, by simp⟩
    intro h0
    have := hpos batch (by simp)
    rw [h0] at this
    cases this
  case setRowOk row rest hlive hset =>
    exfalso
    have hne : sw ≠ [] := by
      rw [← hdoc (by simp)]
      simp
    exact hrej _ _ _ hne hset

theorem received_le_one {env : Env} (hrej : env.RejectsData) (hB : 0 < env.batchSize)
    (sched : List Tid) : (exec env sched).received.length ≤ 1 := by
  have h := (run_invariant
    (fun s => Inv s ∧ DocInv env s ∧ BatchInv env s ∧ FirstRowFails s)
    (fun _ _ h hs => ⟨inv_step h.1 hs, docInv_step h.1 h.2.1 hs, batchInv_step hB h.2.2.1 hs,
      firstRowFails_step hrej hB h.1 h.2.1 h.2.2.1 h.2.2.2 hs⟩)
    sched ⟨inv_start env, docInv_start env, batchInv_start env hB,
      firstRowFails_start env⟩).2.2.2
  unfold FirstRowFails at h
  change match (exec env sched).wpc with
    | .notStarted => (exec env sched).received = []
    | .recv => (exec env sched).received = []
    | .sendDone => (exec env sched).received = []
    | .render rest => rest ≠ [] ∧ (exec env sched).received.length = 1
    | .sendErr _ => (exec env sched).received.length = 1
    | .returned => (exec env sched).received.length ≤ 1 at h
  cases hw : (exec env sched).wpc <;> rw [hw] at h <;> simp only at h <;>
    first
      | (rw [h]; simp; done)
      | omega

/-- Every run can be continued until neither goroutine can move. -/
theorem reaches_stuck (env : Env) :
    ∀ (k : Nat) (s : State), measure s ≤ k →
      ∃ more, ∀ t, step env t (run env more s) = none := by
  intro k
  induction k with
  | zero =>
    intro s hk
    refine ⟨[], fun t => ?_⟩
    cases hst : step env t s with
    | none => exact hst
    | some s' =>
      have := measure_step (step_sound hst)
      omega
  | succ k ih =>
    intro s hk
    by_cases hstuck : ∀ t, step env t s = none
    · exact ⟨[], hstuck⟩
    · obtain ⟨t, ht⟩ := not_forall.1 hstuck
      cases hst : step env t s with
      | none => exact absurd hst ht
      | some s' =>
        have hlt := measure_step (step_sound hst)
        obtain ⟨more, hmore⟩ := ih s' (by omega)
        refine ⟨t :: more, ?_⟩
        simpa [run, advance, hst] using hmore

/-- With more than 11 batches to send and a writer that fails on its first
data row, `main` never gets past the batching loop: no run has an outcome. -/
theorem never_reports {env : Env} {rows : List Row} (hst : (start env).pc = .next)
    (hsrc : env.scans = rows.map ScanResult.ok) (hB : 0 < env.batchSize)
    (hrej : env.RejectsData) (hmany : 11 < (rows.length + env.batchSize - 1) / env.batchSize)
    (sched : List Tid) :
    batching (exec env sched).pc = true ∧ (exec env sched).outcome = none := by
  have hbat : batching (exec env sched).pc = true := by
    by_contra hnb
    have hnb' : batching (exec env sched).pc = false := by simpa using hnb
    have hsz := sent_sizes hsrc hB sched hnb'
    have hlen := congrArg List.length hsz
    rw [List.length_map, chunkSizes_length _ _ hB] at hlen
    have hi := inv_exec env sched
    have hq := congrArg List.length hi.queue
    rw [List.length_append] at hq
    have hcap : (exec env sched).batchChan.length ≤ 10 := hi.cap
    have hr := received_le_one hrej hB sched
    omega
  refine ⟨hbat, ?_⟩
  cases ho : (exec env sched).outcome with
  | none => rfl
  | some o =>
    exfalso
    rw [outcome_eq_some] at ho
    have halive := alive_exec hst sched
    rw [ho] at hbat halive
    rcases o with ⟨site, e⟩ | n
    · cases site
      case scan => exact no_scan_exit hsrc sched e ho
      all_goals first
        | (simp [batching] at hbat; done)
        | (simp [diedEarly] at halive; done)
    · simp [batching] at hbat

theorem stuckEnv_rejects : stuckEnv.RejectsData := by
  intro d c r hd
  cases d with
  | nil => exact absurd rfl hd
  | cons x xs =>
    show (if (x :: xs).isEmpty then none else some "no space left on device") ≠ none
    simp

theorem stuckEnv_scans : stuckEnv.scans = manyRows.map ScanResult.ok :=
  rfl

theorem stuckEnv_many : 11 < (manyRows.length + stuckEnv.batchSize - 1) / stuckEnv.batchSize := by
  have h : manyRows.length = 120000 := List.length_replicate _ _
  rw [h]
  decide

/-- What a state looks like in which neither goroutine can move although the
process has not exited and `main` is still batching. -/
theorem stuck_shape {env : Env} (hst : (start env).pc = .next) (sched : List Tid)
    (hbat : batching (exec env sched).pc = true) (hlive : (exec env sched).outcome = none)
    (hstuck : ∀ t, step env t (exec env sched) = none) :
    ((exec env sched).pc = .sendFull ∨ (exec env sched).pc = .sendLast)
      ∧ (exec env sched).batchChan.length = 10
      ∧ (exec env sched).wpc = .returned
      ∧ ∃ e, (exec env sched).errorChan = [e] ∧ (exec env sched).errSignals = [e] := by
  have hi := inv_exec env sched
  have hstarted := started_exec hst sched
  generalize exec env sched = s at *
  have hmain : ∀ s', step env .main s ≠ some s' := fun s' h => by
    rw [hstuck] at h; cases h
  have hwriter : ∀ s', step env .writer s ≠ some s' := fun s' h => by
    rw [hstuck] at h; cases h
  have hpc : (s.pc = .sendFull ∨ s.pc = .sendLast) ∧ ¬ s.batchChan.length < batchChanCap := by
    rcases hp : s.pc with _ | _ | _ | _ | _ | _ | o
    · obtain ⟨s', h⟩ := @main_moves env s (Or.inl hp)
      exact absurd h (hmain s')
    · refine ⟨Or.inl rfl, fun hlen => ?_⟩
      obtain ⟨s', h⟩ := @main_moves env s
        (Or.inr (Or.inr (Or.inr (Or.inl ⟨Or.inl hp, hlen⟩))))
      exact absurd h (hmain s')
    · refine ⟨Or.inr rfl, fun hlen => ?_⟩
      obtain ⟨s', h⟩ := @main_moves env s
        (Or.inr (Or.inr (Or.inr (Or.inl ⟨Or.inr hp, hlen⟩))))
      exact absurd h (hmain s')
    · rw [hp] at hbat; simp [batching] at hbat
    · rw [hp] at hbat; simp [batching] at hbat
    · rw [hp] at hbat; simp [batching] at hbat
    · exact absurd hp (outcome_none_iff.1 hlive o)
  have hcap : s.batchChan.length ≤ 10 := hi.cap
  have hlen : s.batchChan.length = 10 := by
    have := hpc.2
    simp only [batchChanCap] at this
    omega
  have hne : s.batchChan ≠ [] := by
    intro h0; rw [h0] at hlen; cases hlen
  have htd : tookDone s.pc = false := by
    rcases hpc.1 with h | h <;> rw [h] <;> rfl
  have hte : tookErr s.pc = none := by
    rcases hpc.1 with h | h <;> rw [h] <;> rfl
  have hsig := hi.signals
  have hdone := hi.done_eq
  have herr := hi.err_eq
  rw [htd] at hdone
  simp only [Bool.false_eq_true, if_false] at hdone
  rw [hte] at herr
  simp only [Option.toList, List.nil_append] at herr
  rw [hdone, Nat.add_zero] at hsig
  have hw : s.wpc = .returned := by
    cases hw : s.wpc with
    | notStarted => exact absurd hw hstarted
    | recv =>
      obtain ⟨s', h⟩ := @writer_moves env _ hlive (Or.inl ⟨hw, Or.inl hne⟩)
      exact absurd h (hwriter s')
    | render rest =>
      obtain ⟨s', h⟩ := @writer_moves env _ hlive (Or.inr (Or.inl ⟨rest, hw⟩))
      exact absurd h (hwriter s')
    | sendErr e =>
      rw [hw, if_neg (by simp)] at hsig
      have hch : s.errorChan = [] := by
        rw [← herr]
        exact List.eq_nil_of_length_eq_zero hsig
      obtain ⟨s', h⟩ := @writer_moves env _ hlive (Or.inr (Or.inr (Or.inl ⟨e, hw, hch⟩)))
      exact absurd h (hwriter s')
    | sendDone =>
      have := (hi.at_done hw).1
      rcases hpc.1 with h | h <;> rw [h] at this <;> cases this
    | returned => rfl
  rw [hw] at hsig
  simp only [if_true] at hsig
  refine ⟨hpc.1, hlen, hw, ?_⟩
  rcases hes : s.errSignals with _ | ⟨e, _ | ⟨e', es⟩⟩
  · rw [hes] at hsig; cases hsig
  · exact ⟨e, by rw [← herr, hes], rfl⟩
  · rw [hes] at hsig
    simp only [List.length_cons] at hsig
    omega

/-- C4 at a failing input: 120,000 rows (twelve batches of 10,000) and a
`SetRow` that fails on the first data row.  No schedule ever produces an
outcome, so the `SetRow` error is never reported; and there is a run that
ends with neither goroutine able to move: the writer has returned after
receiving one batch, its error sits unread in `errorChan`, `batchChan` holds
10 batches and `main` is blocked in its send. -/
theorem setRow_error_never_reported :
    (∀ sched, (exec stuckEnv sched).outcome = none)
      ∧ ∃ sched, (∀ t, step stuckEnv t (exec stuckEnv sched) = none)
          ∧ ((exec stuckEnv sched).pc = .sendFull ∨ (exec stuckEnv sched).pc = .sendLast)
          ∧ (exec stuckEnv sched).batchChan.length = 10
          ∧ (exec stuckEnv sched).wpc = .returned
          ∧ (exec stuckEnv sched).received.length = 1
          ∧ (exec stuckEnv sched).errorChan = ["no space left on device"] := by
  have hst : (start stuckEnv).pc = .next := rfl
  have hB : 0 < stuckEnv.batchSize := by decide
  have hnever : ∀ sched, batching (exec stuckEnv sched).pc = true
      ∧ (exec stuckEnv sched).outcome = none :=
    never_reports hst stuckEnv_scans hB stuckEnv_rejects stuckEnv_many
  refine ⟨fun sched => (hnever sched).2, ?_⟩
  obtain ⟨sched, hstuck⟩ := reaches_stuck stuckEnv _ (start stuckEnv) (Nat.le_refl _)
  refine ⟨sched, hstuck, ?_⟩
  obtain ⟨hpc, hlen, hw, e, hch, hes⟩ :=
    stuck_shape hst sched (hnever sched).1 (hnever sched).2 hstuck
  obtain ⟨-, row, rest, hrest, hset⟩ := err_signal_origin stuckEnv sched e (by rw [hes]; simp)
  have he : e = "no space left on device" := by
    have : stuckEnv.setRow (exec stuckEnv sched).streamWriter
        (stuckEnv.coordinatesToCellName 1 (exec stuckEnv sched).rowNum) row
        = if (exec stuckEnv sched).streamWriter.isEmpty then none
          else some "no space left on device" := rfl
    rw [this] at hset
    split at hset
    · cases hset
    · cases hset; rfl
  have hrecv : (exec stuckEnv sched).received.length = 1 := by
    have hle := received_le_one stuckEnv_rejects hB sched
    have hne : (exec stuckEnv sched).received ≠ [] := by
      intro h0
      rw [h0] at hrest
      simp at hrest
    have := List.length_pos.2 hne
    omega
  exact ⟨hpc, hlen, hw, hrecv, by rw [hch, he]⟩

end FastExcel
